import Mathlib

/-!
Verification development for the ScribeAI backend server
(`src/server/server.js`, first document): the asynchronous
processing-job orchestrator (job store, FIFO queue, bounded-concurrency
scheduler, retry/timeout executor, TTL pruner, restart sanitization),
the Microsoft token lifecycle, and the auto-listen settings endpoint.

Modelling conventions:
* JavaScript numbers used as timestamps/counters/durations are `Nat`.
* JavaScript `null`/`undefined`-able fields are `Option`-typed; the
  truthiness idioms `a || b` are modelled by explicit helpers
  (`jsOrNat`, `jsOrStr`, ...) that treat `0` and `""` as falsy,
  exactly as JavaScript does.
* Thrown errors are modelled by their message strings (`Except String`);
  the pipeline's own errors (timeout messages, provider errors) carry
  nonempty messages, so `err?.message || ...` resolves to the message.
* The single-threaded event-loop execution of the scheduler is modelled
  as a transition system: suspension points of `runProcessingJob`
  (completion of the transcribe stage, completion of the summarize
  stage) become events, and the code between two suspension points runs
  atomically, as it does on the Node.js event loop.
-/

namespace Scribe

/-! ## JavaScript truthiness helpers -/

/-- JS `v || d` for a nullable number `v`: `0`, `null` and `undefined` are falsy. -/
def jsOrNat (v : Option Nat) (d : Nat) : Nat :=
  match v with
  | some n => if n = 0 then d else n
  | none => d

/-- JS `v || d` for a nullable string `v`: `""`, `null` and `undefined` are falsy. -/
def jsOrStr (v : Option String) (d : String) : String :=
  match v with
  | some s => if s = "" then d else s
  | none => d

/-- JS `v || null` for a nullable string `v`. -/
def jsStrOrNull (v : Option String) : Option String :=
  match v with
  | some s => if s = "" then none else some s
  | none => none

/-- JS `v || null` for a nullable number `v`. -/
def jsNatOrNull (v : Option Nat) : Option Nat :=
  match v with
  | some n => if n = 0 then none else some n
  | none => none

/-! ## Data model: `ProcessingJob` records (`processingJobsStore.byId` values) -/

/-- Values of `job.status`. -/
inductive Status where
  | queued
  | processing
  | completed
  | failed
deriving DecidableEq, Repr

/-- Values of `job.phase`. -/
inductive Phase where
  | queued
  | transcribe
  | summarize
  | completed
  | failed
deriving DecidableEq, Repr

/-- A processing-job record, as created by `POST /api/processing-jobs`
(server.js:841-855) and mutated by `updateProcessingJob`. -/
structure Job where
  id : String
  status : Status
  phase : Phase
  progress : Nat
  createdAt : Nat
  updatedAt : Nat
  completedAt : Option Nat
  error : Option String
  transcript : Option String
  summary : Option String
  accent : Option String
  mimeType : Option String
  audioBase64 : Option String
deriving DecidableEq, Repr

/-- The `byId` JS object mapping job ids to records: an association list
with key lookup (`processingJobsStore.byId[jobId]`). -/
def getJob : List (String × Job) → String → Option Job
  | [], _ => none
  | (k, j) :: rest, id => if k = id then some j else getJob rest id

/-- Assignment `byId[jobId] = j` when `jobId` is already a key: replace in place. -/
def replaceJob (m : List (String × Job)) (id : String) (j : Job) : List (String × Job) :=
  m.map (fun p => if p.1 = id then (id, j) else p)

/-- Assignment `byId[jobId] = j` in general: replace when present, append otherwise. -/
def setJob (m : List (String × Job)) (id : String) (j : Job) : List (String × Job) :=
  if (getJob m id).isSome then replaceJob m id j else m ++ [(id, j)]

/-! ## Retry-Timeout Executor (`withTimeout`, `runWithRetries`, server.js:161-195) -/

/-- The function `withTimeout` races the operation against a `setTimeout` timer
(server.js:161-177).  The operation is modelled by its eventual outcome
`result` together with the time `durationMs` at which it settles; the
timer wins the race when it fires strictly before the operation settles. -/
def withTimeout (result : Except String α) (durationMs timeoutMs : Nat) (label : String) :
    Except String α :=
  if timeoutMs < durationMs then
    .error (label ++ " timed out after " ++ toString timeoutMs ++ "ms")
  else
    result

/-- Observable trace of one `runWithRetries` call: the value returned or
error thrown, how many times `taskFactory` was invoked, and the argument
of each intervening `waitMs` call, in order. -/
structure RetryTrace (α : Type) where
  result : Except String α
  attempts : Nat
  waits : List Nat
deriving Repr

/-- The `for (let attempt = 0; attempt <= retries; ...)` loop of
`runWithRetries` (server.js:184-192), entered at attempt index `attempt`.
`task i` is the outcome of the `i`-th invocation of `taskFactory`. -/
def runWithRetriesGo (task : Nat → Except String α) (retries baseDelayMs attempt : Nat) :
    RetryTrace α :=
  match task attempt with
  | .ok a => { result := .ok a, attempts := 1, waits := [] }
  | .error e =>
    if _h : retries ≤ attempt then
      { result := .error e, attempts := 1, waits := [] }
    else
      let rest := runWithRetriesGo task retries baseDelayMs (attempt + 1)
      { result := rest.result
        attempts := rest.attempts + 1
        waits := baseDelayMs * (attempt + 1) :: rest.waits }
termination_by retries - attempt
decreasing_by omega

/-- The executor `runWithRetries(taskFactory, { retries, baseDelayMs })`
(server.js:179-195); both call sites pass finite `retries` and
`baseDelayMs`, so the `Number.isFinite` defaults are not taken. -/
def runWithRetries (task : Nat → Except String α) (retries baseDelayMs : Nat) : RetryTrace α :=
  runWithRetriesGo task retries baseDelayMs 0

/-! ## `runProcessingJob` updates (server.js:279-337)

`updateProcessingJob(jobId, patch)` merges the patch object into the
current record and stamps `updatedAt` (server.js:266-277).  Each patch
literal of `runProcessingJob` becomes a record update. -/

/-- The patch applied when a job is dequeued and starts processing
(server.js:283-288). -/
def startPatch (now : Nat) (j : Job) : Job :=
  { j with status := .processing, phase := .transcribe, progress := 12, error := none,
           updatedAt := now }

/-- The patch applied after a successful transcribe stage (server.js:301-306). -/
def midPatch (transcript : String) (now : Nat) (j : Job) : Job :=
  { j with phase := .summarize, progress := 72, transcript := some transcript,
           audioBase64 := none, updatedAt := now }

/-- The patch applied after a successful summarize stage (server.js:318-326). -/
def completePatch (summary : String) (now : Nat) (j : Job) : Job :=
  { j with status := .completed, phase := .completed, progress := 100,
           summary := some summary, completedAt := some now, error := none,
           audioBase64 := none, updatedAt := now }

/-- The patch applied by the `catch` branch of `runProcessingJob`
(server.js:327-336); `e` is the last error's message. -/
def failPatch (e : String) (now : Nat) (j : Job) : Job :=
  { j with status := .failed, phase := .failed, progress := 100,
           completedAt := some now, error := some e,
           audioBase64 := none, updatedAt := now }

/-! ## TTL pruner (`pruneOldProcessingJobs`, server.js:255-264) -/

/-- The reference time `job.completedAt || job.updatedAt || job.createdAt` (server.js:259). -/
def refTime (j : Job) : Nat :=
  jsOrNat j.completedAt (jsOrNat (some j.updatedAt) j.createdAt)

/-- Whether the pruner deletes a record: terminal status and
`now - referenceTime > PROCESSING_JOB_TTL_MS` (server.js:258-262). -/
def shouldPrune (ttl now : Nat) (j : Job) : Bool :=
  (j.status = .completed || j.status = .failed) && ttl < now - refTime j

/-- The sweep `pruneOldProcessingJobs` deletes stale terminal records from `byId`. -/
def pruneOldProcessingJobs (ttl now : Nat) (m : List (String × Job)) : List (String × Job) :=
  m.filter (fun p => !shouldPrune ttl now p.2)

/-! ## Job Store and Scheduler (`processingJobsStore`, `drainProcessingQueue`) -/

/-- State of `createProcessingJobsStore()` (server.js:118-122). -/
structure Store where
  byId : List (String × Job)
  queue : List String
  active : Nat
deriving DecidableEq, Repr

/-- The store at process start. -/
def initStore : Store :=
  { byId := [], queue := [], active := 0 }

/-- The `while` loop of `drainProcessingQueue` (server.js:339-368) over the
queue contents: while `active < parallelism` and the queue is nonempty,
shift the next id; skip it unless the record exists and is still queued
(stale entries); otherwise increment `active` and start `runProcessingJob`,
whose first, synchronous update marks the job processing (`startPatch`).
Returns the remaining queue, the updated record map, and the new `active`. -/
def drainAux (parallelism now : Nat) :
    List String → List (String × Job) → Nat → List String × List (String × Job) × Nat
  | [], m, a => ([], m, a)
  | id :: rest, m, a =>
    if a < parallelism then
      match getJob m id with
      | some j =>
        if j.status = .queued then
          drainAux parallelism now rest (replaceJob m id (startPatch now j)) (a + 1)
        else
          drainAux parallelism now rest m a
      | none => drainAux parallelism now rest m a
    else
      (id :: rest, m, a)

/-- The scheduler entry `drainProcessingQueue()` (server.js:339-368). -/
def drainProcessingQueue (parallelism now : Nat) (s : Store) : Store :=
  let r := drainAux parallelism now s.queue s.byId s.active
  { byId := r.2.1, queue := r.1, active := r.2.2 }

/-- The fresh record created by `POST /api/processing-jobs` (server.js:841-855). -/
def newJob (id accent mimeType audioBase64 : String) (now : Nat) : Job :=
  { id := id, status := .queued, phase := .queued, progress := 2,
    createdAt := now, updatedAt := now, completedAt := none, error := none,
    transcript := none, summary := none, accent := some accent,
    mimeType := some mimeType, audioBase64 := some audioBase64 }

/-- Events of the single-threaded run, in event-loop order.  A submission
runs the handler body plus `enqueueProcessingJob` (which drains).  A
`stage1Done`/`stage2Done` event is the resumption of a started
`runProcessingJob` when its transcribe (resp. summarize) stage settles —
`result` is the outcome of the surrounding `runWithRetries` call; on the
error outcomes and after stage 2 the `.finally` handler of
`drainProcessingQueue` releases the worker slot, prunes and re-drains.
`pruneTick` is the 10-minute `setInterval` sweep (server.js:453-456). -/
inductive Event where
  | submit (id accent mimeType audioBase64 : String) (now : Nat)
  | stage1Done (id : String) (result : Except String String) (now : Nat)
  | stage2Done (id : String) (result : Except String String) (now : Nat)
  | pruneTick (now : Nat)
deriving Repr

/-- The `.finally` handler attached to `runProcessingJob(nextJobId)` in
`drainProcessingQueue` (server.js:361-366): release the slot
(`Math.max(0, active - 1)` is truncated subtraction), prune, re-drain. -/
def releaseSlot (parallelism ttl now : Nat) (s : Store) : Store :=
  drainProcessingQueue parallelism now
    { s with active := s.active - 1,
             byId := pruneOldProcessingJobs ttl now s.byId }

/-- One event-loop step.  `submit` ids come from `randomUUID()`, so a
colliding id never occurs: a submission whose id is already present is
not a possible event and is modelled as a no-op.  A `stage1Done` or
`stage2Done` event can only be delivered for a job actually suspended in
the corresponding stage, which the record itself witnesses
(status `processing` with phase `transcribe` resp. `summarize`); for any
other id the event is not possible and is a no-op. -/
def step (parallelism ttl : Nat) (s : Store) : Event → Store
  | .submit id accent mimeType audioBase64 now =>
    if (getJob s.byId id).isSome then s
    else
      drainProcessingQueue parallelism now
        { s with byId := setJob s.byId id (newJob id accent mimeType audioBase64 now),
                 queue := s.queue ++ [id] }
  | .stage1Done id result now =>
    match getJob s.byId id with
    | some j =>
      if j.status = .processing ∧ j.phase = .transcribe then
        match result with
        | .ok transcript =>
          { s with byId := replaceJob s.byId id (midPatch transcript now j) }
        | .error e =>
          releaseSlot parallelism ttl now
            { s with byId := replaceJob s.byId id (failPatch e now j) }
      else s
    | none => s
  | .stage2Done id result now =>
    match getJob s.byId id with
    | some j =>
      if j.status = .processing ∧ j.phase = .summarize then
        match result with
        | .ok summary =>
          releaseSlot parallelism ttl now
            { s with byId := replaceJob s.byId id (completePatch summary now j) }
        | .error e =>
          releaseSlot parallelism ttl now
            { s with byId := replaceJob s.byId id (failPatch e now j) }
      else s
    | none => s
  | .pruneTick now =>
    { s with byId := pruneOldProcessingJobs ttl now s.byId }

/-- The store reached from process start by a sequence of events. -/
def runEvents (parallelism ttl : Nat) (es : List Event) : Store :=
  es.foldl (step parallelism ttl) initStore

/-! ## Restart hydration (`sanitizeSavedJobs`, `applySavedState`,
server.js:230-253 and 416-438) -/

/-- A job-like object read back from the persisted state file: every
field may be missing.  `status` is the saved status string. -/
structure SavedJob where
  id : Option String
  status : Option String
  progress : Option Nat
  createdAt : Option Nat
  updatedAt : Option Nat
  completedAt : Option Nat
  error : Option String
  transcript : Option String
  summary : Option String
deriving DecidableEq, Repr

/-- The record rebuilt for one saved job by the loop body of
`sanitizeSavedJobs` (server.js:236-250); `now` is `Date.now()`. -/
def sanitizeOne (jobLike : SavedJob) (now : Nat) : Job :=
  let isDone := jobLike.status = some "completed"
  let isFailed := jobLike.status = some "failed"
  { id := jsOrStr jobLike.id ""
    status := if isDone then .completed else if isFailed then .failed else .failed
    phase := if isDone then .completed else .failed
    progress := if isDone then 100 else min 99 (jsOrNat jobLike.progress 0)
    createdAt := jsOrNat jobLike.createdAt now
    updatedAt := now
    completedAt := jsNatOrNull jobLike.completedAt
    error := if isDone then none
             else some (jsOrStr jobLike.error
               "Server restarted before job completed. Please retry.")
    transcript := if isDone then jsStrOrNull jobLike.transcript else none
    summary := if isDone then jsStrOrNull jobLike.summary else none
    accent := none
    mimeType := none
    audioBase64 := none }

/-- One iteration of the `sanitizeSavedJobs` loop: entries without a
truthy `id` are skipped (`if (!jobLike?.id) return`), the rest are keyed
by id in the `hydrated` object. -/
def sanitizeStep (now : Nat) (hydrated : List (String × Job)) (jobLike : SavedJob) :
    List (String × Job) :=
  match jobLike.id with
  | none => hydrated
  | some i => if i = "" then hydrated else setJob hydrated i (sanitizeOne jobLike now)

/-- The loop `sanitizeSavedJobs(savedJobs)` (server.js:230-253). -/
def sanitizeSavedJobs (savedJobs : List SavedJob) (now : Nat) : List (String × Job) :=
  savedJobs.foldl (sanitizeStep now) []

/-- The `saved.processingJobs` branch of `applySavedState`
(server.js:433-437): the sanitized map replaces `byId`, the queue is
emptied and the active counter reset. -/
def applySavedJobs (savedJobs : List SavedJob) (now : Nat) : Store :=
  { byId := sanitizeSavedJobs savedJobs now, queue := [], active := 0 }

/-! ## Client view (`toClientJob`, server.js:197-208, and
`GET /api/processing-jobs/:jobId`, server.js:873-889) -/

/-- The externally visible job view.  Note the structure has no
`audioBase64` field: `toClientJob` never copies it. -/
structure ClientJob where
  id : String
  status : Status
  phase : Phase
  progress : Nat
  createdAt : Nat
  updatedAt : Nat
  completedAt : Option Nat
  error : Option String
  transcript : Option String
  summary : Option String
deriving DecidableEq, Repr

/-- The view builder `toClientJob(job)` (server.js:197-208). -/
def toClientJob (job : Job) : ClientJob :=
  { id := job.id
    status := job.status
    phase := job.phase
    progress := job.progress
    createdAt := job.createdAt
    updatedAt := job.updatedAt
    completedAt := jsNatOrNull job.completedAt
    error := jsStrOrNull job.error
    transcript := if job.status = .completed then job.transcript else none
    summary := if job.status = .completed then job.summary else none }

/-- Endpoint `GET /api/processing-jobs/:jobId` (server.js:873-889): `none` models
the 404 response, `some view` the 200 body's `job` field. -/
def getProcessingJobEndpoint (s : Store) (jobId : String) : Option ClientJob :=
  (getJob s.byId jobId).map toClientJob

/-! ## Microsoft token lifecycle (`refreshMicrosoft`,
`getMicrosoftAccessToken`, server.js:514-555) -/

/-- Record `tokenStore.microsoft` (server.js:84-87). -/
structure TokenRecord where
  access_token : String
  refresh_token : Option String
  expires_at : Nat
deriving DecidableEq, Repr

/-- The JSON body of a successful provider token response; `none` fields
model absent keys. -/
structure RefreshJson where
  access_token : String
  refresh_token : Option String
  expires_in : Option Nat
deriving DecidableEq, Repr

/-- The refresh call `refreshMicrosoft()` (server.js:514-548).  The provider call is
modelled by `resp`: `none` is a non-ok response (`!resp.ok`), `some json`
a success.  Returns the function's return value and the new
`tokenStore.microsoft`.  On a new record,
`refresh_token: json.refresh_token || tokenStore.microsoft.refresh_token`
and `expires_at: nowMs() + Number(json.expires_in || 3600) * 1000 - 60_000`. -/
def refreshMicrosoft (st : Option TokenRecord) (resp : Option RefreshJson) (now : Nat) :
    Option TokenRecord × Option TokenRecord :=
  match st with
  | none => (none, st)
  | some rec =>
    match rec.refresh_token with
    | none => (none, st)
    | some rt =>
      if rt = "" then (none, st)
      else
        match resp with
        | none => (none, st)
        | some json =>
          let newRec : TokenRecord :=
            { access_token := json.access_token
              refresh_token := some (jsOrStr json.refresh_token rt)
              expires_at := now + (jsOrNat json.expires_in 3600) * 1000 - 60000 }
          (some newRec, some newRec)

/-- The getter `getMicrosoftAccessToken()` (server.js:550-555).  Returns the token
(or `none`), the resulting `tokenStore.microsoft`, and how many times
`refreshMicrosoft()` was invoked. -/
def getMicrosoftAccessToken (st : Option TokenRecord) (resp : Option RefreshJson) (now : Nat) :
    Option String × Option TokenRecord × Nat :=
  match st with
  | none => (none, st, 0)
  | some rec =>
    if rec.expires_at ≠ 0 ∧ rec.expires_at > now then
      (some rec.access_token, st, 0)
    else
      let r := refreshMicrosoft st resp now
      ((match r.1 with
        | some refreshed => jsStrOrNull refreshed.access_token
        | none => none),
       r.2, 1)

/-! ## Auto-listen settings endpoint
(`POST /api/auto-listen/settings`, server.js:794-814) -/

/-- A JSON value arriving in the request body.  JavaScript numbers that
are not finite (`NaN`, `±Infinity`) get their own constructors so that
the `Number.isFinite` guard is expressible; finite numbers are modelled
as rationals. -/
inductive JsonVal where
  | null
  | undef
  | bool (b : Bool)
  | num (x : Rat)
  | nan
  | inf
  | neginf
  | str (s : String)
  | arr (xs : List JsonVal)
deriving BEq, Repr

/-- JS `String(x)`.  Decimal formatting of finite numbers is
approximated by the rational's canonical rendering; inside an array
join, `null` and `undefined` render as the empty string. -/
def jsToString : JsonVal → String
  | .null => "null"
  | .undef => "undefined"
  | .bool b => if b then "true" else "false"
  | .num x => if x.den = 1 then toString x.num else toString x
  | .nan => "NaN"
  | .inf => "Infinity"
  | .neginf => "-Infinity"
  | .str s => s
  | .arr xs =>
    String.intercalate "," (xs.attach.map (fun v =>
      match v with
      | ⟨.null, _⟩ => ""
      | ⟨.undef, _⟩ => ""
      | ⟨w, _⟩ => jsToString w))

/-- Settings object `autoListenStore` (server.js:89-93). -/
structure AutoListenSettings where
  enabled : Bool
  leadMinutes : Rat
  providers : List String
deriving BEq, Repr

/-- The destructured request body `{ enabled, leadMinutes, providers }`;
a missing key is `none`. -/
structure SettingsBody where
  enabled : Option JsonVal
  leadMinutes : Option JsonVal
  providers : Option JsonVal
deriving Repr

/-- The three guarded assignments of the settings handler
(server.js:798-800): `typeof enabled === 'boolean'`,
`typeof leadMinutes === 'number' && Number.isFinite(leadMinutes)` with
`Math.max(0, leadMinutes)`, and `Array.isArray(providers)` with
`providers.map((x) => String(x).toLowerCase())`. -/
def applyAutoListenSettings (store : AutoListenSettings) (body : SettingsBody) :
    AutoListenSettings :=
  let s1 := match body.enabled with
    | some (.bool b) => { store with enabled := b }
    | _ => store
  let s2 := match body.leadMinutes with
    | some (.num x) => { s1 with leadMinutes := max 0 x }
    | _ => s1
  match body.providers with
  | some (.arr xs) => { s2 with providers := xs.map (fun x => (jsToString x).toLower) }
  | _ => s2

/-- The endpoint's response body `{ ok: true, settings: autoListenStore }`. -/
structure SettingsResponse where
  ok : Bool
  settings : AutoListenSettings
deriving Repr

/-- Endpoint `POST /api/auto-listen/settings` (server.js:794-814): applies the
guarded assignments and responds 200 with the resulting settings (the
`try` body cannot throw, so the 500 branch is unreachable). -/
def autoListenSettingsEndpoint (store : AutoListenSettings) (body : SettingsBody) :
    AutoListenSettings × SettingsResponse :=
  let updated := applyAutoListenSettings store body
  (updated, { ok := true, settings := updated })

/-! ## Invariants of the live run -/

/-- Number of records currently in status `processing`: the jobs whose
`runProcessingJob` is in flight. -/
def countProcessing (m : List (String × Job)) : Nat :=
  (m.filter (fun p => decide (p.2.status = Status.processing))).length

/-- Keys of the `byId` JS object are distinct. -/
def keysNodup (m : List (String × Job)) : Prop :=
  (m.map Prod.fst).Nodup

/-- Shape of every record the live run produces: progress is bounded by
100 and determined by the milestone the job is at, and terminal records
have progress 100 and no retained payload. -/
def JobOK (j : Job) : Prop :=
  j.progress ≤ 100 ∧
  (j.status = .queued → j.progress = 2) ∧
  (j.status = .processing →
    (j.phase = .transcribe ∧ j.progress = 12) ∨ (j.phase = .summarize ∧ j.progress = 72)) ∧
  ((j.status = .completed ∨ j.status = .failed) → j.progress = 100 ∧ j.audioBase64 = none)

/-- Store invariant: distinct keys, the active-worker counter equals the
number of in-flight jobs and respects the parallelism bound, and every
record is well-shaped. -/
def StoreOK (parallelism : Nat) (s : Store) : Prop :=
  keysNodup s.byId ∧ s.active ≤ parallelism ∧ s.active = countProcessing s.byId ∧
  ∀ p ∈ s.byId, JobOK p.2

/-! ### Association-list lemmas -/

@[simp] theorem getJob_nil (id : String) : getJob [] id = none := rfl

@[simp] theorem getJob_cons (k : String) (j : Job) (rest : List (String × Job)) (id : String) :
    getJob ((k, j) :: rest) id = if k = id then some j else getJob rest id := rfl

@[simp] theorem replaceJob_nil (id : String) (j' : Job) : replaceJob [] id j' = [] := rfl

@[simp] theorem replaceJob_cons (p : String × Job) (rest : List (String × Job))
    (id : String) (j' : Job) :
    replaceJob (p :: rest) id j'
      = (if p.1 = id then (id, j') else p) :: replaceJob rest id j' := rfl

@[simp] theorem countProcessing_nil : countProcessing [] = 0 := rfl

theorem countProcessing_cons (p : String × Job) (rest : List (String × Job)) :
    countProcessing (p :: rest)
      = (if p.2.status = .processing then 1 else 0) + countProcessing rest := by
  by_cases h : p.2.status = .processing <;>
    simp [countProcessing, List.filter_cons, h, Nat.add_comm]

theorem getJob_eq_none_iff (m : List (String × Job)) (id : String) :
    getJob m id = none ↔ id ∉ m.map Prod.fst := by
  induction m with
  | nil => simp
  | cons p rest ih =>
    obtain ⟨k, j⟩ := p
    by_cases h : k = id
    · subst h; simp
    · simp only [getJob_cons, if_neg h, List.map_cons, List.mem_cons]
      rw [ih]
      constructor
      · rintro hn (h1 | h2)
        · exact h h1.symm
        · exact hn h2
      · intro hn hm; exact hn (Or.inr hm)

theorem getJob_mem {m : List (String × Job)} {id : String} {j : Job}
    (h : getJob m id = some j) : (id, j) ∈ m := by
  induction m with
  | nil => simp at h
  | cons p rest ih =>
    obtain ⟨k, j0⟩ := p
    by_cases hk : k = id
    · subst hk
      simp at h
      subst h; exact List.mem_cons_self _ _
    · simp [hk] at h
      exact List.mem_cons_of_mem _ (ih h)

theorem getJob_append_left {m : List (String × Job)} {id : String} {j : Job}
    (h : getJob m id = some j) (l : List (String × Job)) :
    getJob (m ++ l) id = some j := by
  induction m with
  | nil => simp at h
  | cons p rest ih =>
    obtain ⟨k, j0⟩ := p
    by_cases hk : k = id <;> simp_all

theorem getJob_replaceJob_self {m : List (String × Job)} {id : String} {j : Job}
    (h : getJob m id = some j) (j' : Job) :
    getJob (replaceJob m id j') id = some j' := by
  induction m with
  | nil => simp at h
  | cons p rest ih =>
    obtain ⟨k, j0⟩ := p
    by_cases hk : k = id
    · simp [hk]
    · simp [hk] at h ⊢
      exact ih h

theorem getJob_replaceJob_ne (m : List (String × Job)) {k id : String}
    (hne : k ≠ id) (j' : Job) :
    getJob (replaceJob m k j') id = getJob m id := by
  induction m with
  | nil => simp
  | cons p rest ih =>
    obtain ⟨k0, j0⟩ := p
    by_cases hk : k0 = k
    · simp [hk, hne, ih]
    · by_cases h0 : k0 = id <;> simp [hk, h0, Ne.symm hne, ih]

theorem replaceJob_of_getJob_none {m : List (String × Job)} {id : String}
    (h : getJob m id = none) (j' : Job) : replaceJob m id j' = m := by
  induction m with
  | nil => rfl
  | cons p rest ih =>
    obtain ⟨k, j0⟩ := p
    by_cases hk : k = id
    · simp [hk] at h
    · simp [hk] at h ⊢
      exact ih h

theorem getJob_replaceJob_none {m : List (String × Job)} {id : String}
    (h : getJob m id = none) (k : String) (j' : Job) :
    getJob (replaceJob m k j') id = none := by
  by_cases hk : k = id
  · subst hk; rw [replaceJob_of_getJob_none h]; exact h
  · rw [getJob_replaceJob_ne m hk]; exact h

theorem keys_replaceJob (m : List (String × Job)) (id : String) (j' : Job) :
    (replaceJob m id j').map Prod.fst = m.map Prod.fst := by
  induction m with
  | nil => rfl
  | cons p rest ih =>
    obtain ⟨k, j0⟩ := p
    by_cases hk : k = id <;> simp [hk, ih]

theorem mem_replaceJob_cases {m : List (String × Job)} {id : String} {j' : Job} {p : String × Job}
    (h : p ∈ replaceJob m id j') : p = (id, j') ∨ p ∈ m := by
  unfold replaceJob at h
  rcases List.mem_map.1 h with ⟨q, hq, he⟩
  by_cases hk : q.1 = id
  · rw [if_pos hk] at he; left; exact he.symm
  · rw [if_neg hk] at he; right; exact he ▸ hq

theorem countProcessing_replaceJob {m : List (String × Job)} {id : String} {j : Job}
    (hnd : keysNodup m) (h : getJob m id = some j) (j' : Job) :
    countProcessing (replaceJob m id j') + (if j.status = .processing then 1 else 0)
      = countProcessing m + (if j'.status = .processing then 1 else 0) := by
  induction m with
  | nil => simp at h
  | cons p rest ih =>
    obtain ⟨k, j0⟩ := p
    have hnd' : k ∉ rest.map Prod.fst ∧ keysNodup rest := by
      simpa [keysNodup, List.nodup_cons] using hnd
    by_cases hk : k = id
    · subst hk
      simp at h
      subst h
      have hrest : replaceJob rest k j' = rest :=
        replaceJob_of_getJob_none ((getJob_eq_none_iff rest k).2 hnd'.1) j'
      simp only [replaceJob_cons, hrest, countProcessing_cons, ite_true, if_true]
      omega
    · simp [hk] at h
      have := ih hnd'.2 h
      simp only [replaceJob_cons, if_neg hk, countProcessing_cons]
      omega

theorem countProcessing_append_single (m : List (String × Job)) (id : String) (j : Job) :
    countProcessing (m ++ [(id, j)])
      = countProcessing m + (if j.status = .processing then 1 else 0) := by
  by_cases h : j.status = .processing <;>
    simp [countProcessing, List.filter_append, List.filter_cons, h]

/-! ### Pruner lemmas -/

theorem shouldPrune_not_processing {ttl now : Nat} {j : Job}
    (h : shouldPrune ttl now j = true) : j.status ≠ .processing := by
  simp only [shouldPrune, Bool.and_eq_true, Bool.or_eq_true, decide_eq_true_eq] at h
  rcases h.1 with h1 | h1 <;> simp [h1]

theorem mem_of_mem_prune {ttl now : Nat} {m : List (String × Job)} {p : String × Job}
    (h : p ∈ pruneOldProcessingJobs ttl now m) : p ∈ m :=
  (List.mem_filter.1 h).1

theorem countProcessing_prune (ttl now : Nat) (m : List (String × Job)) :
    countProcessing (pruneOldProcessingJobs ttl now m) = countProcessing m := by
  induction m with
  | nil => rfl
  | cons p rest ih =>
    by_cases hp : shouldPrune ttl now p.2
    · have hs := shouldPrune_not_processing hp
      simp [pruneOldProcessingJobs, List.filter_cons, hp, countProcessing_cons, hs] at ih ⊢
      exact ih
    · simp [pruneOldProcessingJobs, List.filter_cons, hp, countProcessing_cons] at ih ⊢
      omega

theorem keysNodup_prune (ttl now : Nat) {m : List (String × Job)}
    (h : keysNodup m) : keysNodup (pruneOldProcessingJobs ttl now m) := by
  have hsub : List.Sublist (pruneOldProcessingJobs ttl now m) m := List.filter_sublist m
  exact List.Nodup.sublist (hsub.map Prod.fst) h

theorem getJob_prune_of_kept {m : List (String × Job)} {id : String} {j : Job}
    (h : getJob m id = some j) {ttl now : Nat} (hp : shouldPrune ttl now j = false) :
    getJob (pruneOldProcessingJobs ttl now m) id = some j := by
  induction m with
  | nil => simp at h
  | cons p rest ih =>
    obtain ⟨k, j0⟩ := p
    by_cases hk : k = id
    · subst hk
      simp at h
      subst h
      simp [pruneOldProcessingJobs, List.filter_cons, hp]
    · simp [hk] at h
      by_cases h0 : shouldPrune ttl now j0 <;>
        simp [pruneOldProcessingJobs, List.filter_cons, h0, hk] at ih ⊢ <;>
        exact ih h

theorem getJob_prune_of_nodup {m : List (String × Job)} {id : String} {j' : Job}
    {ttl now : Nat} (hnd : keysNodup m)
    (h : getJob (pruneOldProcessingJobs ttl now m) id = some j') :
    getJob m id = some j' := by
  induction m with
  | nil => simp [pruneOldProcessingJobs] at h
  | cons p rest ih =>
    obtain ⟨k, j0⟩ := p
    have hnd' : k ∉ rest.map Prod.fst ∧ keysNodup rest := by
      simpa [keysNodup, List.nodup_cons] using hnd
    by_cases h0 : shouldPrune ttl now j0
    · simp only [pruneOldProcessingJobs, List.filter_cons] at h
      rw [if_neg (by simp [h0])] at h
      have hrest := ih hnd'.2 h
      have hk : k ≠ id := by
        intro he
        subst he
        exact hnd'.1 (List.mem_map.2 ⟨(k, j'), getJob_mem hrest, rfl⟩)
      simp [hk, hrest]
    · simp only [pruneOldProcessingJobs, List.filter_cons] at h
      rw [if_pos (by simp [h0])] at h
      by_cases hk : k = id
      · subst hk
        simp at h ⊢
        exact h
      · simp [hk] at h ⊢
        exact ih hnd'.2 h

theorem getJob_prune_none {m : List (String × Job)} {id : String} {ttl now : Nat}
    (h : getJob m id = none) :
    getJob (pruneOldProcessingJobs ttl now m) id = none := by
  rw [getJob_eq_none_iff] at h ⊢
  intro hmem
  rcases List.mem_map.1 hmem with ⟨p, hp, he⟩
  exact h (List.mem_map.2 ⟨p, mem_of_mem_prune hp, he⟩)

/-! ### Drain-loop lemmas -/

theorem drainAux_nil (parallelism now : Nat) (m : List (String × Job)) (a : Nat) :
    drainAux parallelism now [] m a = ([], m, a) := rfl

theorem drainAux_cons_full {parallelism a : Nat} (now : Nat) (id0 : String)
    (rest : List String) (m : List (String × Job)) (hap : ¬a < parallelism) :
    drainAux parallelism now (id0 :: rest) m a = (id0 :: rest, m, a) := by
  simp [drainAux, hap]

theorem drainAux_cons_notfound {parallelism a : Nat} (now : Nat) {id0 : String}
    (rest : List String) {m : List (String × Job)} (hap : a < parallelism)
    (hg : getJob m id0 = none) :
    drainAux parallelism now (id0 :: rest) m a = drainAux parallelism now rest m a := by
  simp [drainAux, hap, hg]

theorem drainAux_cons_notqueued {parallelism a : Nat} (now : Nat) {id0 : String}
    (rest : List String) {m : List (String × Job)} {j0 : Job} (hap : a < parallelism)
    (hg : getJob m id0 = some j0) (hq : ¬j0.status = Status.queued) :
    drainAux parallelism now (id0 :: rest) m a = drainAux parallelism now rest m a := by
  simp [drainAux, hap, hg, hq]

theorem drainAux_cons_start {parallelism a : Nat} (now : Nat) {id0 : String}
    (rest : List String) {m : List (String × Job)} {j0 : Job} (hap : a < parallelism)
    (hg : getJob m id0 = some j0) (hq : j0.status = Status.queued) :
    drainAux parallelism now (id0 :: rest) m a
      = drainAux parallelism now rest (replaceJob m id0 (startPatch now j0)) (a + 1) := by
  simp [drainAux, hap, hg, hq]

/-- Property `JobOK` holds for a freshly started record. -/
theorem jobOK_startPatch (now : Nat) (j : Job) : JobOK (startPatch now j) := by
  simp [JobOK, startPatch]

/-- Invariant preservation and per-record monotonicity of the drain loop:
starting from a well-formed map with `active ≤ parallelism`, the loop
keeps the keys distinct, never pushes `active` beyond `parallelism`,
keeps `active` equal to the number of in-flight jobs, keeps every record
well-shaped, leaves every non-queued record untouched, and never
decreases any record's progress. -/
theorem drainAux_master (parallelism now : Nat) (q : List String) :
    ∀ (m : List (String × Job)) (a : Nat),
      keysNodup m → a ≤ parallelism → a = countProcessing m → (∀ p ∈ m, JobOK p.2) →
      keysNodup (drainAux parallelism now q m a).2.1 ∧
      (drainAux parallelism now q m a).2.2 ≤ parallelism ∧
      (drainAux parallelism now q m a).2.2
        = countProcessing (drainAux parallelism now q m a).2.1 ∧
      (∀ p ∈ (drainAux parallelism now q m a).2.1, JobOK p.2) ∧
      (∀ id j, getJob m id = some j →
        (j.status ≠ .queued → getJob (drainAux parallelism now q m a).2.1 id = some j) ∧
        ∀ j', getJob (drainAux parallelism now q m a).2.1 id = some j' →
          j.progress ≤ j'.progress) := by
  induction q with
  | nil =>
    intro m a hnd ha hc hok
    rw [drainAux_nil]
    refine ⟨hnd, ha, hc, hok, ?_⟩
    intro id j hj
    exact ⟨fun _ => hj, fun j' hj' => by
      rw [hj] at hj'
      rw [Option.some.inj hj']⟩
  | cons id0 rest ih =>
    intro m a hnd ha hc hok
    by_cases hap : a < parallelism
    · cases hg : getJob m id0 with
      | none =>
        rw [drainAux_cons_notfound now rest hap hg]
        exact ih m a hnd ha hc hok
      | some j0 =>
        by_cases hq : j0.status = Status.queued
        · rw [drainAux_cons_start now rest hap hg hq]
          have hnd' : keysNodup (replaceJob m id0 (startPatch now j0)) := by
            unfold keysNodup
            rw [keys_replaceJob]
            exact hnd
          have hc' : a + 1 = countProcessing (replaceJob m id0 (startPatch now j0)) := by
            have hx := countProcessing_replaceJob hnd hg (startPatch now j0)
            have hs : (startPatch now j0).status = Status.processing := rfl
            rw [hq, hs] at hx
            simp at hx
            omega
          have hok' : ∀ p ∈ replaceJob m id0 (startPatch now j0), JobOK p.2 := by
            intro p hp
            rcases mem_replaceJob_cases hp with hp | hp
            · rw [hp]; exact jobOK_startPatch now j0
            · exact hok p hp
          have hrec := ih (replaceJob m id0 (startPatch now j0)) (a + 1) hnd' hap hc' hok'
          refine ⟨hrec.1, hrec.2.1, hrec.2.2.1, hrec.2.2.2.1, ?_⟩
          intro id j hj
          by_cases hid : id0 = id
          · subst hid
            have hjj : j = j0 := by
              rw [hg] at hj
              exact Option.some.inj hj.symm
            subst hjj
            refine ⟨fun hnq => absurd hq hnq, fun j' hj' => ?_⟩
            have hm' : getJob (replaceJob m id0 (startPatch now j)) id0
                = some (startPatch now j) := getJob_replaceJob_self hg _
            have hmono := (hrec.2.2.2.2 id0 (startPatch now j) hm').2 j' hj'
            have h2 : j.progress = 2 := (hok (id0, j) (getJob_mem hg)).2.1 hq
            have h12 : (startPatch now j).progress = 12 := rfl
            omega
          · have hm' : getJob (replaceJob m id0 (startPatch now j0)) id = getJob m id :=
              getJob_replaceJob_ne m hid _
            exact hrec.2.2.2.2 id j (by rw [hm']; exact hj)
        · rw [drainAux_cons_notqueued now rest hap hg hq]
          exact ih m a hnd ha hc hok
    · rw [drainAux_cons_full now id0 rest m hap]
      refine ⟨hnd, ha, hc, hok, ?_⟩
      intro id j hj
      exact ⟨fun _ => hj, fun j' hj' => by
        rw [hj] at hj'
        rw [Option.some.inj hj']⟩

/-! ### Step-level lemmas -/

theorem jobOK_newJob (id accent mimeType audioBase64 : String) (now : Nat) :
    JobOK (newJob id accent mimeType audioBase64 now) := by
  simp [JobOK, newJob]

theorem jobOK_midPatch {j : Job} (h : j.status = .processing) (t : String) (now : Nat) :
    JobOK (midPatch t now j) := by
  simp [JobOK, midPatch, h]

theorem jobOK_completePatch (summary : String) (now : Nat) (j : Job) :
    JobOK (completePatch summary now j) := by
  simp [JobOK, completePatch]

theorem jobOK_failPatch (e : String) (now : Nat) (j : Job) :
    JobOK (failPatch e now j) := by
  simp [JobOK, failPatch]

theorem setJob_of_getJob_none {m : List (String × Job)} {id : String}
    (h : getJob m id = none) (j : Job) : setJob m id j = m ++ [(id, j)] := by
  simp [setJob, h]

theorem getJob_drainAux_none (parallelism now : Nat) (q : List String) :
    ∀ (m : List (String × Job)) (a : Nat) {id : String}, getJob m id = none →
      getJob (drainAux parallelism now q m a).2.1 id = none := by
  induction q with
  | nil =>
    intro m a id h
    rw [drainAux_nil]
    exact h
  | cons id0 rest ih =>
    intro m a id h
    by_cases hap : a < parallelism
    · cases hg : getJob m id0 with
      | none =>
        rw [drainAux_cons_notfound now rest hap hg]
        exact ih m a h
      | some j0 =>
        by_cases hq : j0.status = Status.queued
        · rw [drainAux_cons_start now rest hap hg hq]
          exact ih _ _ (getJob_replaceJob_none h id0 _)
        · rw [drainAux_cons_notqueued now rest hap hg hq]
          exact ih m a h
    · rw [drainAux_cons_full now id0 rest m hap]
      exact h

theorem storeOK_drainProcessingQueue {parallelism : Nat} (now : Nat) {s : Store}
    (hnd : keysNodup s.byId) (ha : s.active ≤ parallelism)
    (hc : s.active = countProcessing s.byId) (hok : ∀ p ∈ s.byId, JobOK p.2) :
    StoreOK parallelism (drainProcessingQueue parallelism now s) := by
  have h := drainAux_master parallelism now s.queue s.byId s.active hnd ha hc hok
  exact ⟨h.1, h.2.1, h.2.2.1, h.2.2.2.1⟩

theorem getJob_drain_kept {parallelism : Nat} (now : Nat) {s : Store}
    (hnd : keysNodup s.byId) (ha : s.active ≤ parallelism)
    (hc : s.active = countProcessing s.byId) (hok : ∀ p ∈ s.byId, JobOK p.2)
    {id : String} {j : Job} (hj : getJob s.byId id = some j)
    (hnq : j.status ≠ .queued) :
    getJob (drainProcessingQueue parallelism now s).byId id = some j :=
  ((drainAux_master parallelism now s.queue s.byId s.active hnd ha hc hok).2.2.2.2
    id j hj).1 hnq

theorem getJob_drain_mono {parallelism : Nat} (now : Nat) {s : Store}
    (hnd : keysNodup s.byId) (ha : s.active ≤ parallelism)
    (hc : s.active = countProcessing s.byId) (hok : ∀ p ∈ s.byId, JobOK p.2)
    {id : String} {j j' : Job} (hj : getJob s.byId id = some j)
    (hj' : getJob (drainProcessingQueue parallelism now s).byId id = some j') :
    j.progress ≤ j'.progress :=
  ((drainAux_master parallelism now s.queue s.byId s.active hnd ha hc hok).2.2.2.2
    id j hj).2 j' hj'

theorem storeOK_releaseSlot {parallelism ttl now : Nat} {s : Store}
    (hnd : keysNodup s.byId) (ha : s.active ≤ parallelism)
    (hc : s.active - 1 = countProcessing s.byId) (hok : ∀ p ∈ s.byId, JobOK p.2) :
    StoreOK parallelism (releaseSlot parallelism ttl now s) := by
  apply storeOK_drainProcessingQueue now
  · exact keysNodup_prune ttl now hnd
  · exact Nat.le_trans (Nat.sub_le _ _) ha
  · rw [countProcessing_prune]
    exact hc
  · intro p hp
    exact hok p (mem_of_mem_prune hp)

theorem releaseSlot_mono {parallelism ttl now : Nat} (s : Store)
    (hnd : keysNodup s.byId) (ha : s.active ≤ parallelism)
    (hc : s.active - 1 = countProcessing s.byId) (hok : ∀ p ∈ s.byId, JobOK p.2)
    {id : String} {j j' : Job} (hj : getJob s.byId id = some j)
    (hj' : getJob (releaseSlot parallelism ttl now s).byId id = some j') :
    j.progress ≤ j'.progress := by
  cases hg2 : getJob (pruneOldProcessingJobs ttl now s.byId) id with
  | none =>
    have : getJob (releaseSlot parallelism ttl now s).byId id = none :=
      getJob_drainAux_none parallelism now _ _ _ hg2
    rw [this] at hj'
    exact absurd hj' (by simp)
  | some jk =>
    have hkj : jk = j := by
      have := getJob_prune_of_nodup hnd hg2
      rw [hj] at this
      exact (Option.some.inj this).symm
    subst hkj
    refine getJob_drain_mono now ?_ ?_ ?_ ?_ hg2 hj'
    · exact keysNodup_prune ttl now hnd
    · exact Nat.le_trans (Nat.sub_le _ _) ha
    · rw [countProcessing_prune]
      exact hc
    · intro p hp
      exact hok p (mem_of_mem_prune hp)

theorem releaseSlot_kept {parallelism ttl now : Nat} (s : Store)
    (hnd : keysNodup s.byId) (ha : s.active ≤ parallelism)
    (hc : s.active - 1 = countProcessing s.byId) (hok : ∀ p ∈ s.byId, JobOK p.2)
    {id : String} {j : Job} (hj : getJob s.byId id = some j)
    (hnq : j.status ≠ .queued) (hsp : shouldPrune ttl now j = false) :
    getJob (releaseSlot parallelism ttl now s).byId id = some j := by
  refine getJob_drain_kept now ?_ ?_ ?_ ?_ (getJob_prune_of_kept hj hsp) hnq
  · exact keysNodup_prune ttl now hnd
  · exact Nat.le_trans (Nat.sub_le _ _) ha
  · rw [countProcessing_prune]
    exact hc
  · intro p hp
    exact hok p (mem_of_mem_prune hp)

/-- Every event-loop step preserves the store invariant. -/
theorem step_ok (parallelism ttl : Nat) (s : Store) (e : Event)
    (h : StoreOK parallelism s) : StoreOK parallelism (step parallelism ttl s e) := by
  obtain ⟨hnd, ha, hc, hok⟩ := h
  cases e with
  | submit id accent mimeType audioBase64 now =>
    simp only [step]
    split
    · exact ⟨hnd, ha, hc, hok⟩
    · next hex =>
      have hnone : getJob s.byId id = none := by
        cases hg : getJob s.byId id
        · rfl
        · rw [hg] at hex; simp at hex
      rw [setJob_of_getJob_none hnone]
      apply storeOK_drainProcessingQueue now
      · have hid : id ∉ s.byId.map Prod.fst := (getJob_eq_none_iff _ _).1 hnone
        simp only [keysNodup, List.map_append, List.map_cons, List.map_nil]
        rw [List.nodup_append]
        exact ⟨hnd, List.nodup_singleton _, by simpa [List.disjoint_singleton] using hid⟩
      · exact ha
      · rw [countProcessing_append_single]
        have hqs : (newJob id accent mimeType audioBase64 now).status = Status.queued := rfl
        rw [hqs]
        simpa using hc
      · intro p hp
        rcases List.mem_append.1 hp with hp | hp
        · exact hok p hp
        · rw [List.mem_singleton.1 hp]
          exact jobOK_newJob id accent mimeType audioBase64 now
  | stage1Done id result now =>
    cases result with
    | ok t =>
      simp only [step]
      split
      · next j heq =>
        split
        · next hguard =>
          refine ⟨?_, ha, ?_, ?_⟩
          · simp only [keysNodup]
            rw [keys_replaceJob]
            exact hnd
          · have hx := countProcessing_replaceJob hnd heq (midPatch t now j)
            have h2 : (midPatch t now j).status = j.status := rfl
            rw [h2, hguard.1] at hx
            simp at hx
            simp only []
            omega
          · intro p hp
            rcases mem_replaceJob_cases hp with hp | hp
            · rw [hp]
              exact jobOK_midPatch hguard.1 t now
            · exact hok p hp
        · exact ⟨hnd, ha, hc, hok⟩
      · exact ⟨hnd, ha, hc, hok⟩
    | error err =>
      simp only [step]
      split
      · next j heq =>
        split
        · next hguard =>
          apply storeOK_releaseSlot
          · simp only [keysNodup]
            rw [keys_replaceJob]
            exact hnd
          · exact ha
          · have hx := countProcessing_replaceJob hnd heq (failPatch err now j)
            have h2 : (failPatch err now j).status = Status.failed := rfl
            rw [h2, hguard.1] at hx
            simp at hx
            simp only []
            omega
          · intro p hp
            rcases mem_replaceJob_cases hp with hp | hp
            · rw [hp]
              exact jobOK_failPatch err now j
            · exact hok p hp
        · exact ⟨hnd, ha, hc, hok⟩
      · exact ⟨hnd, ha, hc, hok⟩
  | stage2Done id result now =>
    cases result with
    | ok t =>
      simp only [step]
      split
      · next j heq =>
        split
        · next hguard =>
          apply storeOK_releaseSlot
          · simp only [keysNodup]
            rw [keys_replaceJob]
            exact hnd
          · exact ha
          · have hx := countProcessing_replaceJob hnd heq (completePatch t now j)
            have h2 : (completePatch t now j).status = Status.completed := rfl
            rw [h2, hguard.1] at hx
            simp at hx
            simp only []
            omega
          · intro p hp
            rcases mem_replaceJob_cases hp with hp | hp
            · rw [hp]
              exact jobOK_completePatch t now j
            · exact hok p hp
        · exact ⟨hnd, ha, hc, hok⟩
      · exact ⟨hnd, ha, hc, hok⟩
    | error err =>
      simp only [step]
      split
      · next j heq =>
        split
        · next hguard =>
          apply storeOK_releaseSlot
          · simp only [keysNodup]
            rw [keys_replaceJob]
            exact hnd
          · exact ha
          · have hx := countProcessing_replaceJob hnd heq (failPatch err now j)
            have h2 : (failPatch err now j).status = Status.failed := rfl
            rw [h2, hguard.1] at hx
            simp at hx
            simp only []
            omega
          · intro p hp
            rcases mem_replaceJob_cases hp with hp | hp
            · rw [hp]
              exact jobOK_failPatch err now j
            · exact hok p hp
        · exact ⟨hnd, ha, hc, hok⟩
      · exact ⟨hnd, ha, hc, hok⟩
  | pruneTick now =>
    simp only [step]
    refine ⟨keysNodup_prune ttl now hnd, ha, ?_, ?_⟩
    · rw [countProcessing_prune]
      exact hc
    · intro p hp
      exact hok p (mem_of_mem_prune hp)

theorem storeOK_init (parallelism : Nat) : StoreOK parallelism initStore := by
  refine ⟨?_, ?_, ?_, ?_⟩
  · simp [keysNodup, initStore]
  · simp [initStore]
  · simp [initStore, countProcessing]
  · intro p hp
    simp [initStore] at hp

theorem storeOK_foldl (parallelism ttl : Nat) (es : List Event) :
    ∀ s : Store, StoreOK parallelism s →
      StoreOK parallelism (es.foldl (step parallelism ttl) s) := by
  induction es with
  | nil => exact fun s h => h
  | cons e rest ih => exact fun s h => ih _ (step_ok parallelism ttl s e h)

/-- Every store reachable from process start satisfies the invariant. -/
theorem storeOK_runEvents (parallelism ttl : Nat) (es : List Event) :
    StoreOK parallelism (runEvents parallelism ttl es) :=
  storeOK_foldl parallelism ttl es initStore (storeOK_init parallelism)

/-- No single event-loop step ever decreases a record's progress. -/
theorem step_mono (parallelism ttl : Nat) (s : Store) (e : Event)
    (h : StoreOK parallelism s) {id : String} {j j' : Job}
    (hj : getJob s.byId id = some j)
    (hj' : getJob (step parallelism ttl s e).byId id = some j') :
    j.progress ≤ j'.progress := by
  obtain ⟨hnd, ha, hc, hok⟩ := h
  cases e with
  | submit id0 accent mimeType audioBase64 now =>
    simp only [step] at hj'
    split at hj'
    · rw [hj] at hj'
      rw [Option.some.inj hj']
    · next hex =>
      have hnone : getJob s.byId id0 = none := by
        cases hg : getJob s.byId id0
        · rfl
        · rw [hg] at hex; simp at hex
      rw [setJob_of_getJob_none hnone] at hj'
      refine getJob_drain_mono now ?_ ?_ ?_ ?_ (getJob_append_left hj _) hj'
      · have hid : id0 ∉ s.byId.map Prod.fst := (getJob_eq_none_iff _ _).1 hnone
        simp only [keysNodup, List.map_append, List.map_cons, List.map_nil]
        rw [List.nodup_append]
        exact ⟨hnd, List.nodup_singleton _, by simpa [List.disjoint_singleton] using hid⟩
      · exact ha
      · rw [countProcessing_append_single]
        have hqs : (newJob id0 accent mimeType audioBase64 now).status = Status.queued := rfl
        rw [hqs]
        simpa using hc
      · intro p hp
        rcases List.mem_append.1 hp with hp | hp
        · exact hok p hp
        · rw [List.mem_singleton.1 hp]
          exact jobOK_newJob id0 accent mimeType audioBase64 now
  | stage1Done id0 result now =>
    cases result with
    | ok t =>
      simp only [step] at hj'
      split at hj'
      · next jm heq =>
        split at hj'
        · next hguard =>
          by_cases hid : id0 = id
          · have heq' : getJob s.byId id = some jm := by rw [← hid]; exact heq
            have hjm : j = jm := Option.some.inj (hj.symm.trans heq')
            subst hjm
            rw [← hid] at hj'
            rw [getJob_replaceJob_self heq (midPatch t now j)] at hj'
            have hj'm : midPatch t now j = j' := Option.some.inj hj'
            have hjok := hok (id, j) (getJob_mem hj)
            have h12 : j.progress = 12 := by
              rcases hjok.2.2.1 hguard.1 with hcase | hcase
              · exact hcase.2
              · rw [hguard.2] at hcase
                exact absurd hcase.1 (by simp)
            rw [← hj'm]
            have h72 : (midPatch t now j).progress = 72 := rfl
            omega
          · rw [getJob_replaceJob_ne s.byId hid] at hj'
            rw [hj] at hj'
            rw [Option.some.inj hj']
        · rw [hj] at hj'
          rw [Option.some.inj hj']
      · rw [hj] at hj'
        rw [Option.some.inj hj']
    | error err =>
      simp only [step] at hj'
      split at hj'
      · next jm heq =>
        split at hj'
        · next hguard =>
          have hndm : keysNodup (replaceJob s.byId id0 (failPatch err now jm)) := by
            simp only [keysNodup]
            rw [keys_replaceJob]
            exact hnd
          have hcm : s.active - 1
              = countProcessing (replaceJob s.byId id0 (failPatch err now jm)) := by
            have hx := countProcessing_replaceJob hnd heq (failPatch err now jm)
            have h2 : (failPatch err now jm).status = Status.failed := rfl
            rw [h2, hguard.1] at hx
            simp at hx
            omega
          have hokm : ∀ p ∈ replaceJob s.byId id0 (failPatch err now jm), JobOK p.2 := by
            intro p hp
            rcases mem_replaceJob_cases hp with hp | hp
            · rw [hp]
              exact jobOK_failPatch err now jm
            · exact hok p hp
          by_cases hid : id0 = id
          · have heq' : getJob s.byId id = some jm := by rw [← hid]; exact heq
            have hjm : j = jm := Option.some.inj (hj.symm.trans heq')
            rw [← hid] at hj'
            have hmono := releaseSlot_mono
              { s with byId := replaceJob s.byId id0 (failPatch err now jm) }
              hndm ha hcm hokm (getJob_replaceJob_self heq (failPatch err now jm)) hj'
            have h100 : (failPatch err now jm).progress = 100 := rfl
            have hle : jm.progress ≤ 100 := (hok (id0, jm) (getJob_mem heq)).1
            rw [hjm]
            omega
          · have hmj : getJob (replaceJob s.byId id0 (failPatch err now jm)) id = some j := by
              rw [getJob_replaceJob_ne s.byId hid]
              exact hj
            exact releaseSlot_mono
              { s with byId := replaceJob s.byId id0 (failPatch err now jm) }
              hndm ha hcm hokm hmj hj'
        · rw [hj] at hj'
          rw [Option.some.inj hj']
      · rw [hj] at hj'
        rw [Option.some.inj hj']
  | stage2Done id0 result now =>
    cases result with
    | ok t =>
      simp only [step] at hj'
      split at hj'
      · next jm heq =>
        split at hj'
        · next hguard =>
          have hndm : keysNodup (replaceJob s.byId id0 (completePatch t now jm)) := by
            simp only [keysNodup]
            rw [keys_replaceJob]
            exact hnd
          have hcm : s.active - 1
              = countProcessing (replaceJob s.byId id0 (completePatch t now jm)) := by
            have hx := countProcessing_replaceJob hnd heq (completePatch t now jm)
            have h2 : (completePatch t now jm).status = Status.completed := rfl
            rw [h2, hguard.1] at hx
            simp at hx
            omega
          have hokm : ∀ p ∈ replaceJob s.byId id0 (completePatch t now jm), JobOK p.2 := by
            intro p hp
            rcases mem_replaceJob_cases hp with hp | hp
            · rw [hp]
              exact jobOK_completePatch t now jm
            · exact hok p hp
          by_cases hid : id0 = id
          · have heq' : getJob s.byId id = some jm := by rw [← hid]; exact heq
            have hjm : j = jm := Option.some.inj (hj.symm.trans heq')
            rw [← hid] at hj'
            have hmono := releaseSlot_mono
              { s with byId := replaceJob s.byId id0 (completePatch t now jm) }
              hndm ha hcm hokm (getJob_replaceJob_self heq (completePatch t now jm)) hj'
            have h100 : (completePatch t now jm).progress = 100 := rfl
            have hle : jm.progress ≤ 100 := (hok (id0, jm) (getJob_mem heq)).1
            rw [hjm]
            omega
          · have hmj : getJob (replaceJob s.byId id0 (completePatch t now jm)) id = some j := by
              rw [getJob_replaceJob_ne s.byId hid]
              exact hj
            exact releaseSlot_mono
              { s with byId := replaceJob s.byId id0 (completePatch t now jm) }
              hndm ha hcm hokm hmj hj'
        · rw [hj] at hj'
          rw [Option.some.inj hj']
      · rw [hj] at hj'
        rw [Option.some.inj hj']
    | error err =>
      simp only [step] at hj'
      split at hj'
      · next jm heq =>
        split at hj'
        · next hguard =>
          have hndm : keysNodup (replaceJob s.byId id0 (failPatch err now jm)) := by
            simp only [keysNodup]
            rw [keys_replaceJob]
            exact hnd
          have hcm : s.active - 1
              = countProcessing (replaceJob s.byId id0 (failPatch err now jm)) := by
            have hx := countProcessing_replaceJob hnd heq (failPatch err now jm)
            have h2 : (failPatch err now jm).status = Status.failed := rfl
            rw [h2, hguard.1] at hx
            simp at hx
            omega
          have hokm : ∀ p ∈ replaceJob s.byId id0 (failPatch err now jm), JobOK p.2 := by
            intro p hp
            rcases mem_replaceJob_cases hp with hp | hp
            · rw [hp]
              exact jobOK_failPatch err now jm
            · exact hok p hp
          by_cases hid : id0 = id
          · have heq' : getJob s.byId id = some jm := by rw [← hid]; exact heq
            have hjm : j = jm := Option.some.inj (hj.symm.trans heq')
            rw [← hid] at hj'
            have hmono := releaseSlot_mono
              { s with byId := replaceJob s.byId id0 (failPatch err now jm) }
              hndm ha hcm hokm (getJob_replaceJob_self heq (failPatch err now jm)) hj'
            have h100 : (failPatch err now jm).progress = 100 := rfl
            have hle : jm.progress ≤ 100 := (hok (id0, jm) (getJob_mem heq)).1
            rw [hjm]
            omega
          · have hmj : getJob (replaceJob s.byId id0 (failPatch err now jm)) id = some j := by
              rw [getJob_replaceJob_ne s.byId hid]
              exact hj
            exact releaseSlot_mono
              { s with byId := replaceJob s.byId id0 (failPatch err now jm) }
              hndm ha hcm hokm hmj hj'
        · rw [hj] at hj'
          rw [Option.some.inj hj']
      · rw [hj] at hj'
        rw [Option.some.inj hj']
  | pruneTick now =>
    simp only [step] at hj'
    have := getJob_prune_of_nodup hnd hj'
    rw [hj] at this
    rw [Option.some.inj this]

/-! ### Retry-executor lemmas -/

theorem runWithRetriesGo_allfail {α : Type} (task : Nat → Except String α)
    (retries baseDelayMs : Nat) (errs : Nat → String)
    (htask : ∀ i, task i = .error (errs i)) :
    ∀ (n attempt : Nat), retries - attempt = n → attempt ≤ retries →
      runWithRetriesGo task retries baseDelayMs attempt
        = { result := .error (errs retries),
            attempts := retries - attempt + 1,
            waits := (List.range (retries - attempt)).map
              (fun i => baseDelayMs * (attempt + i + 1)) } := by
  intro n
  induction n with
  | zero =>
    intro attempt h0 hle
    have heqa : attempt = retries := by omega
    subst heqa
    unfold runWithRetriesGo
    split
    · next a ha =>
      rw [htask attempt] at ha
      exact absurd ha (by simp)
    · next e he =>
      rw [htask attempt] at he
      have he' : errs attempt = e := Except.error.inj he
      rw [dif_pos (Nat.le_refl _)]
      simp [← he', Nat.sub_self]
  | succ n ih =>
    intro attempt h0 hle
    have hlt : attempt < retries := by omega
    unfold runWithRetriesGo
    split
    · next a ha =>
      rw [htask attempt] at ha
      exact absurd ha (by simp)
    · next e he =>
      rw [dif_neg (by omega : ¬retries ≤ attempt)]
      have hrec := ih (attempt + 1) (by omega) (by omega)
      simp only [hrec]
      have hn1 : retries - attempt = n + 1 := h0
      have hn2 : retries - (attempt + 1) = n := by omega
      have hat : retries - (attempt + 1) + 1 + 1 = retries - attempt + 1 := by omega
      have hw : baseDelayMs * (attempt + 1)
            :: (List.range (retries - (attempt + 1))).map
                (fun i => baseDelayMs * (attempt + 1 + i + 1))
          = (List.range (retries - attempt)).map
              (fun i => baseDelayMs * (attempt + i + 1)) := by
        rw [hn1, hn2, List.range_succ_eq_map]
        simp only [List.map_cons, List.map_map]
        congr 1
        apply List.map_congr_left
        intro i _
        exact congrArg (fun x => baseDelayMs * x)
          (show attempt + 1 + i + 1 = attempt + Nat.succ i + 1 by omega)
      rw [hat, hw]

theorem runWithRetriesGo_firstSuccess {α : Type} (task : Nat → Except String α)
    (retries baseDelayMs : Nat) (k : Nat) (a : α)
    (hk : k ≤ retries) (hsucc : task k = .ok a)
    (hfail : ∀ i, i < k → ∃ e, task i = .error e) :
    ∀ (n attempt : Nat), k - attempt = n → attempt ≤ k →
      runWithRetriesGo task retries baseDelayMs attempt
        = { result := .ok a,
            attempts := k - attempt + 1,
            waits := (List.range (k - attempt)).map
              (fun i => baseDelayMs * (attempt + i + 1)) } := by
  intro n
  induction n with
  | zero =>
    intro attempt h0 hle
    have heqa : attempt = k := by omega
    subst heqa
    unfold runWithRetriesGo
    split
    · next b hb =>
      rw [hsucc] at hb
      have hb' : a = b := Except.ok.inj hb
      simp [← hb', Nat.sub_self]
    · next e he =>
      rw [hsucc] at he
      exact absurd he (by simp)
  | succ n ih =>
    intro attempt h0 hle
    have hlt : attempt < k := by omega
    unfold runWithRetriesGo
    split
    · next b hb =>
      obtain ⟨e, he⟩ := hfail attempt hlt
      rw [he] at hb
      exact absurd hb (by simp)
    · next e he =>
      rw [dif_neg (by omega : ¬retries ≤ attempt)]
      have hrec := ih (attempt + 1) (by omega) (by omega)
      simp only [hrec]
      have hn1 : k - attempt = n + 1 := h0
      have hn2 : k - (attempt + 1) = n := by omega
      have hat : k - (attempt + 1) + 1 + 1 = k - attempt + 1 := by omega
      have hw : baseDelayMs * (attempt + 1)
            :: (List.range (k - (attempt + 1))).map
                (fun i => baseDelayMs * (attempt + 1 + i + 1))
          = (List.range (k - attempt)).map
              (fun i => baseDelayMs * (attempt + i + 1)) := by
        rw [hn1, hn2, List.range_succ_eq_map]
        simp only [List.map_cons, List.map_map]
        congr 1
        apply List.map_congr_left
        intro i _
        exact congrArg (fun x => baseDelayMs * x)
          (show attempt + 1 + i + 1 = attempt + Nat.succ i + 1 by omega)
      rw [hat, hw]

theorem runWithRetries_allfail {α : Type} (task : Nat → Except String α)
    (retries baseDelayMs : Nat) (errs : Nat → String)
    (htask : ∀ i, task i = .error (errs i)) :
    runWithRetries task retries baseDelayMs
      = { result := .error (errs retries),
          attempts := retries + 1,
          waits := (List.range retries).map (fun i => baseDelayMs * (i + 1)) } := by
  have h := runWithRetriesGo_allfail task retries baseDelayMs errs htask
    (retries - 0) 0 rfl (Nat.zero_le _)
  rw [runWithRetries, h]
  simp

theorem runWithRetries_firstSuccess {α : Type} (task : Nat → Except String α)
    (retries baseDelayMs : Nat) (k : Nat) (a : α)
    (hk : k ≤ retries) (hsucc : task k = .ok a)
    (hfail : ∀ i, i < k → ∃ e, task i = .error e) :
    runWithRetries task retries baseDelayMs
      = { result := .ok a,
          attempts := k + 1,
          waits := (List.range k).map (fun i => baseDelayMs * (i + 1)) } := by
  have h := runWithRetriesGo_firstSuccess task retries baseDelayMs k a hk hsucc hfail
    (k - 0) 0 rfl (Nat.zero_le _)
  rw [runWithRetries, h]
  simp

/-! ### Failure-path and sanitization lemmas -/

theorem shouldPrune_failPatch (ttl now : Nat) (e : String) (j : Job) :
    shouldPrune ttl now (failPatch e now j) = false := by
  by_cases h0 : now = 0 <;>
    simp [shouldPrune, refTime, failPatch, jsOrNat, h0]

/-- When a started job's stage settles with an error, the `catch` branch
of `runProcessingJob` rewrites the record with `failPatch`, and the
record — terminal and just stamped — survives the `.finally` handler's
prune-and-drain untouched. -/
theorem step_stage_error_record {parallelism : Nat} (ttl : Nat) {s : Store}
    (hS : StoreOK parallelism s) {id : String} {j : Job}
    (hj : getJob s.byId id = some j) (hst : j.status = .processing)
    (e : String) (now : Nat) :
    (j.phase = .transcribe →
      getJob (step parallelism ttl s (.stage1Done id (.error e) now)).byId id
        = some (failPatch e now j)) ∧
    (j.phase = .summarize →
      getJob (step parallelism ttl s (.stage2Done id (.error e) now)).byId id
        = some (failPatch e now j)) := by
  obtain ⟨hnd, ha, hc, hok⟩ := hS
  have hndm : keysNodup (replaceJob s.byId id (failPatch e now j)) := by
    simp only [keysNodup]
    rw [keys_replaceJob]
    exact hnd
  have hcm : s.active - 1 = countProcessing (replaceJob s.byId id (failPatch e now j)) := by
    have hx := countProcessing_replaceJob hnd hj (failPatch e now j)
    have h2 : (failPatch e now j).status = Status.failed := rfl
    rw [h2, hst] at hx
    simp at hx
    omega
  have hokm : ∀ p ∈ replaceJob s.byId id (failPatch e now j), JobOK p.2 := by
    intro p hp
    rcases mem_replaceJob_cases hp with hp | hp
    · rw [hp]
      exact jobOK_failPatch e now j
    · exact hok p hp
  have hkept : getJob (releaseSlot parallelism ttl now
      { s with byId := replaceJob s.byId id (failPatch e now j) }).byId id
      = some (failPatch e now j) := by
    refine releaseSlot_kept { s with byId := replaceJob s.byId id (failPatch e now j) }
      hndm ha hcm hokm
      (getJob_replaceJob_self hj (failPatch e now j)) (by simp [failPatch])
      (shouldPrune_failPatch ttl now e j)
  constructor
  · intro hph
    simp only [step, hj]
    rw [if_pos ⟨hst, hph⟩]
    exact hkept
  · intro hph
    simp only [step, hj]
    rw [if_pos ⟨hst, hph⟩]
    exact hkept

theorem mem_setJob_cases {m : List (String × Job)} {id : String} {j : Job} {p : String × Job}
    (h : p ∈ setJob m id j) : p = (id, j) ∨ p ∈ m := by
  unfold setJob at h
  by_cases hg : (getJob m id).isSome
  · rw [if_pos hg] at h
    exact mem_replaceJob_cases h
  · rw [if_neg hg] at h
    rcases List.mem_append.1 h with h | h
    · exact Or.inr h
    · exact Or.inl (List.mem_singleton.1 h)

theorem sanitizeOne_audio_none (jobLike : SavedJob) (now : Nat) :
    (sanitizeOne jobLike now).audioBase64 = none := rfl

theorem sanitizeSavedJobs_entries (savedJobs : List SavedJob) (now : Nat) :
    ∀ p ∈ sanitizeSavedJobs savedJobs now, ∃ jobLike, p.2 = sanitizeOne jobLike now := by
  have haux : ∀ (l : List SavedJob) (acc : List (String × Job)),
      (∀ p ∈ acc, ∃ jobLike, p.2 = sanitizeOne jobLike now) →
      ∀ p ∈ l.foldl (sanitizeStep now) acc, ∃ jobLike, p.2 = sanitizeOne jobLike now := by
    intro l
    induction l with
    | nil => exact fun acc h => h
    | cons x xs ih =>
      intro acc hacc
      apply ih
      intro p hp
      unfold sanitizeStep at hp
      cases hx : x.id with
      | none =>
        simp only [hx] at hp
        exact hacc p hp
      | some i =>
        simp only [hx] at hp
        by_cases hi : i = ""
        · rw [if_pos hi] at hp
          exact hacc p hp
        · rw [if_neg hi] at hp
          rcases mem_setJob_cases hp with hp | hp
          · exact ⟨x, by rw [hp]⟩
          · exact hacc p hp
  intro p hp
  exact haux savedJobs [] (by intro p hp; simp at hp) p hp

/-! ## Claim theorems -/

/-- C1: for every sequence of submissions and completions (event-loop
runs from process start), the active-worker counter always equals the
number of in-flight jobs — it is incremented exactly once per started
job and decremented exactly once when that job finishes — and never
exceeds the configured parallelism.  `active` is a `Nat` (the code's
`Math.max(0, active - 1)` is truncated subtraction), so it can never go
negative, and by construction `drainAux` dequeues a job only under the
`active < parallelism` guard. -/
theorem claim1_active_worker_bound (parallelism ttl : Nat) (es : List Event) :
    (runEvents parallelism ttl es).active
        = countProcessing (runEvents parallelism ttl es).byId ∧
    (runEvents parallelism ttl es).active ≤ parallelism := by
  have h := storeOK_runEvents parallelism ttl es
  exact ⟨h.2.2.1, h.2.1⟩

/-- C2: whenever a stage of a started job fails unrecoverably (the
surrounding `runWithRetries` call settles with an error), the job record
ends with status=failed, phase=failed, progress=100, `completedAt` set,
`error` the last error's message, and `audioBase64` cleared to null; and
a transcribe stage that exceeds its timeout on every attempt produces
exactly `retries + 1 = 3` attempts whose final error is the timeout
message, which then feeds that failure path. -/
theorem claim2_unrecoverable_failure_record (parallelism ttl : Nat) (es : List Event)
    (id : String) (j : Job) (e : String) (now : Nat)
    (hj : getJob (runEvents parallelism ttl es).byId id = some j)
    (hst : j.status = .processing) :
    (j.phase = .transcribe →
      getJob (step parallelism ttl (runEvents parallelism ttl es)
          (.stage1Done id (.error e) now)).byId id = some (failPatch e now j)) ∧
    (j.phase = .summarize →
      getJob (step parallelism ttl (runEvents parallelism ttl es)
          (.stage2Done id (.error e) now)).byId id = some (failPatch e now j)) ∧
    (failPatch e now j).status = .failed ∧
    (failPatch e now j).phase = .failed ∧
    (failPatch e now j).progress = 100 ∧
    (failPatch e now j).completedAt = some now ∧
    (failPatch e now j).error = some e ∧
    (failPatch e now j).audioBase64 = none ∧
    (∀ (dur : Nat → Nat) (T : Nat) (r : Nat → Except String String),
      (∀ i, T < dur i) →
      runWithRetries (fun i => withTimeout (r i) (dur i) T "Transcription") 2 2500
        = { result := .error ("Transcription timed out after " ++ toString T ++ "ms"),
            attempts := 3,
            waits := [2500, 5000] }) := by
  have hrec := step_stage_error_record ttl (storeOK_runEvents parallelism ttl es)
    hj hst e now
  refine ⟨hrec.1, hrec.2, rfl, rfl, rfl, rfl, rfl, rfl, ?_⟩
  intro dur T r hT
  have h := runWithRetries_allfail (fun i => withTimeout (r i) (dur i) T "Transcription")
    2 2500 (fun _ => "Transcription timed out after " ++ toString T ++ "ms")
    (fun i => by simp [withTimeout, hT i])
  rw [h]
  rfl

/-- C3: on an operation failing every attempt, `runWithRetries` makes
exactly `retries + 1` attempts, waits `baseDelayMs * (attemptIndex + 1)`
between consecutive attempts (0-based indices, no wait after the final
attempt: the wait list has one entry per non-final attempt), and
propagates the last error; if some attempt succeeds first at index `k`,
its result is returned after `k + 1` attempts and no further attempts
are made. -/
theorem claim3_retry_executor {α : Type} (task : Nat → Except String α)
    (retries baseDelayMs : Nat) :
    (∀ errs : Nat → String, (∀ i, task i = .error (errs i)) →
      runWithRetries task retries baseDelayMs
        = { result := .error (errs retries), attempts := retries + 1,
            waits := (List.range retries).map (fun i => baseDelayMs * (i + 1)) }) ∧
    (∀ (k : Nat) (a : α), k ≤ retries → task k = .ok a →
      (∀ i, i < k → ∃ e, task i = .error e) →
      runWithRetries task retries baseDelayMs
        = { result := .ok a, attempts := k + 1,
            waits := (List.range k).map (fun i => baseDelayMs * (i + 1)) }) :=
  ⟨fun errs htask => runWithRetries_allfail task retries baseDelayMs errs htask,
   fun k a hk hsucc hfail =>
     runWithRetries_firstSuccess task retries baseDelayMs k a hk hsucc hfail⟩

/-- Witness for C2: a concrete submitted-and-started job whose transcribe
stage fails ends as the expected failed record, and a transcribe stage
whose every attempt exceeds its 10ms timeout yields 3 attempts and the
timeout message. -/
theorem claim2_witness :
    getJob (step 1 1000 (runEvents 1 1000 [.submit "a" "std" "audio/webm" "QUJD" 1])
        (.stage1Done "a" (.error "boom") 2)).byId "a"
      = some (failPatch "boom" 2
          { id := "a", status := .processing, phase := .transcribe, progress := 12,
            createdAt := 1, updatedAt := 1, completedAt := none, error := none,
            transcript := none, summary := none, accent := some "std",
            mimeType := some "audio/webm", audioBase64 := some "QUJD" }) ∧
    runWithRetries (fun i => withTimeout (.ok "t") (20 + i) 10 "Transcription") 2 2500
      = { result := .error ("Transcription timed out after " ++ toString 10 ++ "ms"),
          attempts := 3, waits := [2500, 5000] } := by
  have h := claim2_unrecoverable_failure_record 1 1000
    [.submit "a" "std" "audio/webm" "QUJD" 1] "a"
    { id := "a", status := .processing, phase := .transcribe, progress := 12,
      createdAt := 1, updatedAt := 1, completedAt := none, error := none,
      transcript := none, summary := none, accent := some "std",
      mimeType := some "audio/webm", audioBase64 := some "QUJD" } "boom" 2 (by decide) rfl
  exact ⟨h.1 rfl,
    h.2.2.2.2.2.2.2.2 (fun i => 20 + i) 10 (fun _ => .ok "t")
      (fun i => by show 10 < 20 + i; omega)⟩

/-- Witness for C3: an always-failing task makes 3 attempts with waits
1500 and 3000 and propagates the last error; a task succeeding on its
second attempt stops after 2 attempts with a single wait. -/
theorem claim3_witness :
    runWithRetries (fun _ => (.error "boom" : Except String String)) 2 1500
      = { result := .error "boom", attempts := 3, waits := [1500, 3000] } ∧
    runWithRetries (fun i => if i = 0 then (.error "first" : Except String String)
        else .ok "done") 2 1500
      = { result := .ok "done", attempts := 2, waits := [1500] } := by
  constructor
  · have h := (claim3_retry_executor (fun _ => (.error "boom" : Except String String))
      2 1500).1 (fun _ => "boom") (fun _ => rfl)
    rw [h]
    rfl
  · have h := (claim3_retry_executor (fun i => if i = 0 then
        (.error "first" : Except String String) else .ok "done") 2 1500).2 1 "done"
      (by omega) rfl
      (fun i hi => by
        have hi0 : i = 0 := by omega
        subst hi0
        exact ⟨"first", rfl⟩)
    rw [h]
    rfl

/-- C4: restart rehydration.  Every saved job whose status is not
`completed` is rebuilt as status=failed, phase=failed, with a
restart-explaining error when it had none and `transcript`/`summary`
null; every saved `completed` job keeps its (nonempty) transcript and
summary; and every record in the rehydrated map — installed by
`applySavedState` — has `audioBase64` null. -/
theorem claim4_restart_sanitization (sj : SavedJob) (now : Nat) :
    (sanitizeOne sj now).audioBase64 = none ∧
    (sj.status ≠ some "completed" →
      (sanitizeOne sj now).status = .failed ∧
      (sanitizeOne sj now).phase = .failed ∧
      (sanitizeOne sj now).transcript = none ∧
      (sanitizeOne sj now).summary = none ∧
      (sj.error = none →
        (sanitizeOne sj now).error
          = some "Server restarted before job completed. Please retry.")) ∧
    (sj.status = some "completed" →
      (sanitizeOne sj now).status = .completed ∧
      (sanitizeOne sj now).transcript = jsStrOrNull sj.transcript ∧
      (sanitizeOne sj now).summary = jsStrOrNull sj.summary ∧
      (∀ t, sj.transcript = some t → t ≠ "" → (sanitizeOne sj now).transcript = some t) ∧
      (∀ u, sj.summary = some u → u ≠ "" → (sanitizeOne sj now).summary = some u)) ∧
    (∀ (saved : List SavedJob) (p : String × Job),
      p ∈ (applySavedJobs saved now).byId → p.2.audioBase64 = none) := by
  refine ⟨rfl, ?_, ?_, ?_⟩
  · intro hne
    refine ⟨?_, ?_, ?_, ?_, ?_⟩
    · simp [sanitizeOne, hne]
    · simp [sanitizeOne, hne]
    · simp [sanitizeOne, hne]
    · simp [sanitizeOne, hne]
    · intro herr
      simp [sanitizeOne, hne, herr, jsOrStr]
  · intro hdone
    refine ⟨?_, ?_, ?_, ?_, ?_⟩
    · simp [sanitizeOne, hdone]
    · simp [sanitizeOne, hdone]
    · simp [sanitizeOne, hdone]
    · intro t ht hne
      simp [sanitizeOne, hdone, ht, jsStrOrNull, hne]
    · intro u hu hne
      simp [sanitizeOne, hdone, hu, jsStrOrNull, hne]
  · intro saved p hp
    obtain ⟨jobLike, hjl⟩ := sanitizeSavedJobs_entries saved now p hp
    rw [hjl]
    exact sanitizeOne_audio_none jobLike now

/-- Witness for C4: a job saved mid-processing rehydrates failed with the
restart message and no transcript; a completed job keeps transcript and
summary; both rehydrated records carry no payload. -/
theorem claim4_witness :
    (sanitizeOne
      { id := some "p", status := some "processing", progress := some 50,
        createdAt := some 1, updatedAt := some 2, completedAt := none, error := none,
        transcript := none, summary := none } 9).status = Status.failed ∧
    (sanitizeOne
      { id := some "p", status := some "processing", progress := some 50,
        createdAt := some 1, updatedAt := some 2, completedAt := none, error := none,
        transcript := none, summary := none } 9).error
      = some "Server restarted before job completed. Please retry." ∧
    (sanitizeOne
      { id := some "c", status := some "completed", progress := some 100,
        createdAt := some 1, updatedAt := some 2, completedAt := some 3,
        error := none, transcript := some "words", summary := some "sum" } 9).transcript
      = some "words" ∧
    (sanitizeOne
      { id := some "c", status := some "completed", progress := some 100,
        createdAt := some 1, updatedAt := some 2, completedAt := some 3,
        error := none, transcript := some "words", summary := some "sum" } 9).summary
      = some "sum" ∧
    ∀ p ∈ (applySavedJobs
      [{ id := some "p", status := some "processing", progress := some 50,
         createdAt := some 1, updatedAt := some 2, completedAt := none, error := none,
         transcript := none, summary := none }] 9).byId,
      p.2.audioBase64 = none := by
  have h1 := claim4_restart_sanitization
    { id := some "p", status := some "processing", progress := some 50,
      createdAt := some 1, updatedAt := some 2, completedAt := none,
      error := none, transcript := none, summary := none } 9
  have h2 := claim4_restart_sanitization
    { id := some "c", status := some "completed", progress := some 100,
      createdAt := some 1, updatedAt := some 2, completedAt := some 3,
      error := none, transcript := some "words", summary := some "sum" } 9
  have hne := h1.2.1 (by decide)
  have hdone := h2.2.2.1 rfl
  exact ⟨hne.1, hne.2.2.2.2 rfl,
    hdone.2.2.2.1 "words" rfl (by decide), hdone.2.2.2.2 "sum" rfl (by decide),
    fun p hp => h1.2.2.2 _ p hp⟩

/-- C5: in every reachable store, a record whose status is terminal
(`completed` or `failed`) has `audioBase64` null: the payload is held
only while the job is queued or processing and is cleared on the
transition to a terminal status. -/
theorem claim5_audio_cleared (parallelism ttl : Nat) (es : List Event)
    (p : String × Job) (hp : p ∈ (runEvents parallelism ttl es).byId)
    (ht : p.2.status = .completed ∨ p.2.status = .failed) :
    p.2.audioBase64 = none :=
  (((storeOK_runEvents parallelism ttl es).2.2.2 p hp).2.2.2 ht).2

/-- Witness for C5: the failed record of a concrete run holds no payload. -/
theorem claim5_witness :
    (("a",
      { id := "a", status := .failed, phase := .failed, progress := 100,
        createdAt := 1, updatedAt := 2, completedAt := some 2,
        error := some "boom", transcript := none, summary := none,
        accent := some "std", mimeType := some "audio/webm",
        audioBase64 := none }) : String × Job).2.audioBase64 = none :=
  claim5_audio_cleared 1 1000
    [.submit "a" "std" "audio/webm" "QUJD" 1, .stage1Done "a" (.error "boom") 2]
    ("a",
      { id := "a", status := .failed, phase := .failed, progress := 100,
        createdAt := 1, updatedAt := 2, completedAt := some 2,
        error := some "boom", transcript := none, summary := none,
        accent := some "std", mimeType := some "audio/webm",
        audioBase64 := none })
    (by decide) (by decide)

/-- C6: the status endpoint returns `toClientJob job` — a view whose
type has no `audioBase64` field at all — and that view's `transcript`
and `summary` are null unless the job's status is `completed`, so a
caller polling a queued, processing, or failed job never observes
in-progress AI output. -/
theorem claim6_client_view (s : Store) (id : String) (j : Job)
    (h : getJob s.byId id = some j) :
    getProcessingJobEndpoint s id = some (toClientJob j) ∧
    (j.status ≠ .completed →
      (toClientJob j).transcript = none ∧ (toClientJob j).summary = none) ∧
    (j.status = .completed →
      (toClientJob j).transcript = j.transcript ∧
      (toClientJob j).summary = j.summary) := by
  refine ⟨?_, ?_, ?_⟩
  · simp [getProcessingJobEndpoint, h]
  · intro hne
    simp [toClientJob, hne]
  · intro he
    simp [toClientJob, he]

/-- Witness for C6: polling a failed job whose record still holds a
transcript and summary internally returns a view with both nulled. -/
theorem claim6_witness :
    getProcessingJobEndpoint
      { byId := [("a",
          { id := "a", status := .failed, phase := .failed, progress := 100,
            createdAt := 1, updatedAt := 2, completedAt := some 2,
            error := some "boom", transcript := some "secret",
            summary := some "hidden", accent := none, mimeType := none,
            audioBase64 := none })],
        queue := [], active := 0 } "a"
      = some (toClientJob
          { id := "a", status := .failed, phase := .failed, progress := 100,
            createdAt := 1, updatedAt := 2, completedAt := some 2,
            error := some "boom", transcript := some "secret",
            summary := some "hidden", accent := none, mimeType := none,
            audioBase64 := none }) ∧
    (toClientJob
      { id := "a", status := .failed, phase := .failed, progress := 100,
        createdAt := 1, updatedAt := 2, completedAt := some 2,
        error := some "boom", transcript := some "secret",
        summary := some "hidden", accent := none, mimeType := none,
        audioBase64 := none }).transcript = none ∧
    (toClientJob
      { id := "a", status := .failed, phase := .failed, progress := 100,
        createdAt := 1, updatedAt := 2, completedAt := some 2,
        error := some "boom", transcript := some "secret",
        summary := some "hidden", accent := none, mimeType := none,
        audioBase64 := none }).summary = none := by
  have h := claim6_client_view
    { byId := [("a",
        { id := "a", status := .failed, phase := .failed, progress := 100,
          createdAt := 1, updatedAt := 2, completedAt := some 2,
          error := some "boom", transcript := some "secret",
          summary := some "hidden", accent := none, mimeType := none,
          audioBase64 := none })],
      queue := [], active := 0 } "a"
    { id := "a", status := .failed, phase := .failed, progress := 100,
      createdAt := 1, updatedAt := 2, completedAt := some 2,
      error := some "boom", transcript := some "secret",
      summary := some "hidden", accent := none, mimeType := none,
      audioBase64 := none } (by decide)
  exact ⟨h.1, (h.2.1 (by decide)).1, (h.2.1 (by decide)).2⟩

/-- C7: a TTL sweep at time `now` deletes a record if and only if its
status is terminal and `now` minus its reference time (`completedAt` if
present, else `updatedAt`; timestamps are epoch milliseconds, so the
stated hypotheses only rule out the JS-falsy value 0, and the
`createdAt` fallback is unreachable because `updatedAt` is always set)
strictly exceeds the TTL.  Non-terminal jobs are never deleted, and a
terminal job whose age is at most the TTL is kept. -/
theorem claim7_ttl_prune (ttl now : Nat) (m : List (String × Job)) (i : String) (j : Job)
    (h1 : j.completedAt ≠ some 0) (h2 : j.updatedAt ≠ 0) :
    (i, j) ∈ pruneOldProcessingJobs ttl now m ↔
      (i, j) ∈ m ∧
      ¬((j.status = .completed ∨ j.status = .failed) ∧
        ttl < now - (match j.completedAt with | some c => c | none => j.updatedAt)) := by
  have href : refTime j = (match j.completedAt with | some c => c | none => j.updatedAt) := by
    unfold refTime jsOrNat
    cases hc : j.completedAt with
    | some c =>
      have hc0 : c ≠ 0 := by
        intro h0
        exact h1 (by rw [hc, h0])
      simp [hc0]
    | none =>
      simp [h2]
  have hb : (!shouldPrune ttl now j) = true ↔
      ¬((j.status = .completed ∨ j.status = .failed) ∧
        ttl < now - (match j.completedAt with | some c => c | none => j.updatedAt)) := by
    rw [← href]
    simp [shouldPrune, not_and_or]
    tauto
  rw [pruneOldProcessingJobs, List.mem_filter, hb]

/-- Witness for C7, the spec scenario with TTL=1000ms: a job completed at
t=1 is removed by a prune check at t=1501 and kept by one at t=501. -/
theorem claim7_witness :
    (("A",
      { id := "A", status := .completed, phase := .completed, progress := 100,
        createdAt := 1, updatedAt := 1, completedAt := some 1,
        error := none, transcript := some "t", summary := some "s",
        accent := none, mimeType := none, audioBase64 := none }) : String × Job)
      ∉ pruneOldProcessingJobs 1000 1501
        [("A",
          { id := "A", status := .completed, phase := .completed, progress := 100,
            createdAt := 1, updatedAt := 1, completedAt := some 1,
            error := none, transcript := some "t", summary := some "s",
            accent := none, mimeType := none, audioBase64 := none })] ∧
    (("A",
      { id := "A", status := .completed, phase := .completed, progress := 100,
        createdAt := 1, updatedAt := 1, completedAt := some 1,
        error := none, transcript := some "t", summary := some "s",
        accent := none, mimeType := none, audioBase64 := none }) : String × Job)
      ∈ pruneOldProcessingJobs 1000 501
        [("A",
          { id := "A", status := .completed, phase := .completed, progress := 100,
            createdAt := 1, updatedAt := 1, completedAt := some 1,
            error := none, transcript := some "t", summary := some "s",
            accent := none, mimeType := none, audioBase64 := none })] := by
  constructor
  · intro hmem
    have h := (claim7_ttl_prune 1000 1501 _ "A"
      { id := "A", status := .completed, phase := .completed, progress := 100,
        createdAt := 1, updatedAt := 1, completedAt := some 1,
        error := none, transcript := some "t", summary := some "s",
        accent := none, mimeType := none, audioBase64 := none }
      (by decide) (by decide)).1 hmem
    exact h.2 (by decide)
  · exact (claim7_ttl_prune 1000 501 _ "A"
      { id := "A", status := .completed, phase := .completed, progress := 100,
        createdAt := 1, updatedAt := 1, completedAt := some 1,
        error := none, transcript := some "t", summary := some "s",
        accent := none, mimeType := none, audioBase64 := none }
      (by decide) (by decide)).2 ⟨by decide, by decide⟩

/-- Counterexample to C8 as stated: a job persisted as `failed` with
progress 100 — the only progress a live failed job can have — is
rehydrated at restart with status still `failed` but progress
`min(99, 100) = 99` (`sanitizeSavedJobs`, server.js:240 clamps every
non-`completed` job).  So across restart rehydration a terminal record's
progress decreases from 100 to 99, and a terminal (failed) record exists
whose progress is not 100. -/
theorem claim8_counterexample :
    (sanitizeOne
      { id := some "f", status := some "failed", progress := some 100,
        createdAt := some 1, updatedAt := some 2, completedAt := some 3,
        error := some "boom", transcript := none, summary := none } 9).status
      = Status.failed ∧
    (sanitizeOne
      { id := some "f", status := some "failed", progress := some 100,
        createdAt := some 1, updatedAt := some 2, completedAt := some 3,
        error := some "boom", transcript := none, summary := none } 9).progress
      = 99 ∧
    ¬(sanitizeOne
      { id := some "f", status := some "failed", progress := some 100,
        createdAt := some 1, updatedAt := some 2, completedAt := some 3,
        error := some "boom", transcript := none, summary := none } 9).progress
      = 100 := by
  refine ⟨rfl, rfl, by decide⟩

/-- C8 (amended): during live execution — submission, dequeue, stage
transitions, terminal transition, pruning — a job's progress never
decreases across any update and every terminal record has progress 100.
Across restart rehydration the completed records keep progress 100, but
every non-completed saved record (including saved `failed` records,
whose live progress was 100) is clamped to at most 99, so there progress
may decrease from 100 to 99. -/
theorem claim8_progress_amended (parallelism ttl : Nat) (es : List Event) :
    (∀ p ∈ (runEvents parallelism ttl es).byId,
      (p.2.status = .completed ∨ p.2.status = .failed) → p.2.progress = 100) ∧
    (∀ (e : Event) (id : String) (j j' : Job),
      getJob (runEvents parallelism ttl es).byId id = some j →
      getJob (step parallelism ttl (runEvents parallelism ttl es) e).byId id = some j' →
      j.progress ≤ j'.progress) ∧
    (∀ (sj : SavedJob) (now : Nat), sj.status ≠ some "completed" →
      (sanitizeOne sj now).progress ≤ 99) ∧
    (∀ (sj : SavedJob) (now : Nat), sj.status = some "completed" →
      (sanitizeOne sj now).progress = 100) := by
  have h := storeOK_runEvents parallelism ttl es
  refine ⟨fun p hp ht => ((h.2.2.2 p hp).2.2.2 ht).1,
    fun e id j j' hj hj' => step_mono parallelism ttl _ e h hj hj', ?_, ?_⟩
  · intro sj now hne
    simp [sanitizeOne, hne]
  · intro sj now hdone
    simp [sanitizeOne, hdone]

/-- Witness for C8 (amended) at a concrete run: the failed record of a
finished job has progress 100, a further prune tick does not decrease
it, and the counterexample's saved failed job rehydrates with progress
99 ≤ 99 while a saved completed job keeps 100. -/
theorem claim8_witness :
    (("a",
      { id := "a", status := .failed, phase := .failed, progress := 100,
        createdAt := 1, updatedAt := 2, completedAt := some 2,
        error := some "boom", transcript := none, summary := none,
        accent := some "std", mimeType := some "audio/webm",
        audioBase64 := none }) : String × Job).2.progress = 100 ∧
    (100 : Nat) ≤ 100 ∧
    (sanitizeOne
      { id := some "f", status := some "failed", progress := some 100,
        createdAt := some 1, updatedAt := some 2, completedAt := some 3,
        error := some "boom", transcript := none, summary := none } 9).progress ≤ 99 ∧
    (sanitizeOne
      { id := some "c", status := some "completed", progress := some 100,
        createdAt := some 1, updatedAt := some 2, completedAt := some 3,
        error := none, transcript := some "t", summary := none } 9).progress = 100 := by
  have h := claim8_progress_amended 1 1000
    [.submit "a" "std" "audio/webm" "QUJD" 1, .stage1Done "a" (.error "boom") 2]
  refine ⟨?_, ?_, ?_, ?_⟩
  · exact h.1 ("a",
      { id := "a", status := .failed, phase := .failed, progress := 100,
        createdAt := 1, updatedAt := 2, completedAt := some 2,
        error := some "boom", transcript := none, summary := none,
        accent := some "std", mimeType := some "audio/webm",
        audioBase64 := none }) (by decide) (by decide)
  · exact h.2.1 (.pruneTick 5) "a"
      { id := "a", status := .failed, phase := .failed, progress := 100,
        createdAt := 1, updatedAt := 2, completedAt := some 2,
        error := some "boom", transcript := none, summary := none,
        accent := some "std", mimeType := some "audio/webm",
        audioBase64 := none }
      { id := "a", status := .failed, phase := .failed, progress := 100,
        createdAt := 1, updatedAt := 2, completedAt := some 2,
        error := some "boom", transcript := none, summary := none,
        accent := some "std", mimeType := some "audio/webm",
        audioBase64 := none } (by decide) (by decide)
  · exact h.2.2.1
      { id := some "f", status := some "failed", progress := some 100,
        createdAt := some 1, updatedAt := some 2, completedAt := some 3,
        error := some "boom", transcript := none, summary := none } 9 (by decide)
  · exact h.2.2.2
      { id := some "c", status := some "completed", progress := some 100,
        createdAt := some 1, updatedAt := some 2, completedAt := some 3,
        error := none, transcript := some "t", summary := none } 9 rfl

/-- C9: the Microsoft token fast/slow paths.  With no record the getter
returns null with no refresh; with an unexpired record it returns the
cached token with no refresh call; otherwise it invokes `refreshMicrosoft`
exactly once — on provider success storing a new record that keeps the
old refresh token when the provider omits one and returning the new
access token, and returning null (store unchanged) when the refresh
fails, including when no refresh token is on file. -/
theorem claim9_token_lifecycle (resp : Option RefreshJson) (now : Nat) :
    getMicrosoftAccessToken none resp now = (none, none, 0) ∧
    (∀ rec : TokenRecord, now < rec.expires_at →
      getMicrosoftAccessToken (some rec) resp now
        = (some rec.access_token, some rec, 0)) ∧
    (∀ rec : TokenRecord, ¬now < rec.expires_at →
      (getMicrosoftAccessToken (some rec) resp now).2.2 = 1 ∧
      (resp = none →
        getMicrosoftAccessToken (some rec) resp now = (none, some rec, 1)) ∧
      (rec.refresh_token = none →
        getMicrosoftAccessToken (some rec) resp now = (none, some rec, 1)) ∧
      (∀ json rt, resp = some json → rec.refresh_token = some rt → rt ≠ "" →
        json.refresh_token = none → json.access_token ≠ "" →
        getMicrosoftAccessToken (some rec) resp now
          = (some json.access_token,
             some { access_token := json.access_token,
                    refresh_token := some rt,
                    expires_at := now + jsOrNat json.expires_in 3600 * 1000 - 60000 },
             1))) := by
  refine ⟨rfl, ?_, ?_⟩
  · intro rec h
    have hcond : rec.expires_at ≠ 0 ∧ rec.expires_at > now := ⟨by omega, h⟩
    simp only [getMicrosoftAccessToken]
    rw [if_pos hcond]
  · intro rec h
    have hcond : ¬(rec.expires_at ≠ 0 ∧ rec.expires_at > now) := fun hc => h hc.2
    refine ⟨?_, ?_, ?_, ?_⟩
    · simp only [getMicrosoftAccessToken]
      rw [if_neg hcond]
    · intro hresp
      subst hresp
      simp only [getMicrosoftAccessToken]
      rw [if_neg hcond]
      cases hrt : rec.refresh_token with
      | none => simp [refreshMicrosoft, hrt]
      | some rt =>
        by_cases hrt0 : rt = "" <;> simp [refreshMicrosoft, hrt, hrt0]
    · intro hrt
      simp only [getMicrosoftAccessToken]
      rw [if_neg hcond]
      simp [refreshMicrosoft, hrt]
    · intro json rt hresp hrt hrt0 hjrt hjat
      subst hresp
      simp only [getMicrosoftAccessToken]
      rw [if_neg hcond]
      simp [refreshMicrosoft, hrt, hrt0, hjrt, jsOrStr, jsStrOrNull, hjat]

/-- Witness for C9: concrete fast path, failed refresh, and successful
refresh that keeps the old refresh token. -/
theorem claim9_witness :
    getMicrosoftAccessToken
      (some { access_token := "tok", refresh_token := some "r", expires_at := 5000 })
      none 100
      = (some "tok", some { access_token := "tok", refresh_token := some "r",
                            expires_at := 5000 }, 0) ∧
    getMicrosoftAccessToken
      (some { access_token := "tok", refresh_token := some "r", expires_at := 5000 })
      none 9000
      = (none, some { access_token := "tok", refresh_token := some "r",
                      expires_at := 5000 }, 1) ∧
    getMicrosoftAccessToken
      (some { access_token := "tok", refresh_token := some "r", expires_at := 5000 })
      (some { access_token := "new", refresh_token := none, expires_in := some 3600 })
      9000
      = (some "new", some { access_token := "new", refresh_token := some "r",
                            expires_at := 9000 + 3600 * 1000 - 60000 }, 1) := by
  refine ⟨?_, ?_, ?_⟩
  · exact (claim9_token_lifecycle none 100).2.1
      { access_token := "tok", refresh_token := some "r", expires_at := 5000 } (by decide)
  · exact ((claim9_token_lifecycle none 9000).2.2
      { access_token := "tok", refresh_token := some "r", expires_at := 5000 }
      (by decide)).2.1 rfl
  · have h := ((claim9_token_lifecycle
      (some { access_token := "new", refresh_token := none, expires_in := some 3600 })
      9000).2.2
      { access_token := "tok", refresh_token := some "r", expires_at := 5000 }
      (by decide)).2.2.2
      { access_token := "new", refresh_token := none, expires_in := some 3600 } "r"
      rfl rfl (by decide) rfl (by decide)
    rw [h]
    rfl

/-- C10: the auto-listen settings endpoint applies only well-typed
fields — a non-boolean `enabled`, a non-number or non-finite
`leadMinutes`, or a non-array `providers` leaves that stored setting
(and only the corresponding update) unapplied — a numeric `leadMinutes`
is stored as `max(0, value)`, and the endpoint always responds ok with
the resulting settings rather than rejecting the request.  Each field's
final value depends only on its own body field, so invalid fields leave
the other settings changes unaffected. -/
theorem claim10_settings_endpoint (store : AutoListenSettings) (body : SettingsBody) :
    autoListenSettingsEndpoint store body
      = (applyAutoListenSettings store body,
         { ok := true, settings := applyAutoListenSettings store body }) ∧
    ((∀ b, body.enabled ≠ some (.bool b)) →
      (applyAutoListenSettings store body).enabled = store.enabled) ∧
    (∀ b, body.enabled = some (.bool b) →
      (applyAutoListenSettings store body).enabled = b) ∧
    ((∀ x, body.leadMinutes ≠ some (.num x)) →
      (applyAutoListenSettings store body).leadMinutes = store.leadMinutes) ∧
    (∀ x, body.leadMinutes = some (.num x) →
      (applyAutoListenSettings store body).leadMinutes = max 0 x) ∧
    ((∀ xs, body.providers ≠ some (.arr xs)) →
      (applyAutoListenSettings store body).providers = store.providers) ∧
    (∀ xs, body.providers = some (.arr xs) →
      (applyAutoListenSettings store body).providers
        = xs.map (fun x => (jsToString x).toLower)) := by
  refine ⟨rfl, ?_, ?_, ?_, ?_, ?_, ?_⟩
  · intro hne
    simp only [applyAutoListenSettings]
    repeat' split
    all_goals simp_all
  · intro b hb
    simp only [applyAutoListenSettings]
    repeat' split
    all_goals simp_all
  · intro hne
    simp only [applyAutoListenSettings]
    repeat' split
    all_goals simp_all
  · intro x hx
    simp only [applyAutoListenSettings]
    repeat' split
    all_goals simp_all
  · intro hne
    simp only [applyAutoListenSettings]
    repeat' split
    all_goals simp_all
  · intro xs hxs
    simp only [applyAutoListenSettings]
    repeat' split
    all_goals simp_all

/-- Witness for C10: a body with a string `enabled`, a `NaN`
`leadMinutes` and an array `providers` updates only the providers (the
ill-typed fields leave their settings unchanged) and still gets an ok
response; a negative numeric `leadMinutes` is clamped to 0. -/
theorem claim10_witness :
    (applyAutoListenSettings
      { enabled := false, leadMinutes := 2, providers := ["google", "microsoft"] }
      { enabled := some (.str "yes"), leadMinutes := some .nan,
        providers := some (.arr [.str "Google"]) }).enabled = false ∧
    (applyAutoListenSettings
      { enabled := false, leadMinutes := 2, providers := ["google", "microsoft"] }
      { enabled := some (.str "yes"), leadMinutes := some .nan,
        providers := some (.arr [.str "Google"]) }).leadMinutes = 2 ∧
    (applyAutoListenSettings
      { enabled := false, leadMinutes := 2, providers := ["google", "microsoft"] }
      { enabled := some (.str "yes"), leadMinutes := some .nan,
        providers := some (.arr [.str "Google"]) }).providers = ["Google".toLower] ∧
    (autoListenSettingsEndpoint
      { enabled := false, leadMinutes := 2, providers := ["google", "microsoft"] }
      { enabled := some (.str "yes"), leadMinutes := some .nan,
        providers := some (.arr [.str "Google"]) }).2.ok = true ∧
    (applyAutoListenSettings
      { enabled := false, leadMinutes := 2, providers := ["google", "microsoft"] }
      { enabled := none, leadMinutes := some (.num (-5)), providers := none }).leadMinutes
      = 0 := by
  have h := claim10_settings_endpoint
    { enabled := false, leadMinutes := 2, providers := ["google", "microsoft"] }
    { enabled := some (.str "yes"), leadMinutes := some .nan,
      providers := some (.arr [.str "Google"]) }
  have h2 := claim10_settings_endpoint
    { enabled := false, leadMinutes := 2, providers := ["google", "microsoft"] }
    { enabled := none, leadMinutes := some (.num (-5)), providers := none }
  refine ⟨?_, ?_, ?_, ?_, ?_⟩
  · exact h.2.1 (by intro b hb; simp at hb)
  · exact h.2.2.2.1 (by intro x hx; simp at hx)
  · rw [h.2.2.2.2.2.2 [.str "Google"] rfl]
    simp only [jsToString, List.map_cons, List.map_nil]
  · rw [h.1]
  · rw [h2.2.2.2.2.1 (-5) rfl]
    decide

end Scribe
